import Mathlib

/-!
Verification development for the repsys dataset-partitioning and ranking-evaluation
core (`repsys/dataset.py`, `repsys/evaluator.py`).

The Python code is shallowly embedded as pure Lean functions:

* an interaction table (a `pandas.DataFrame` with columns user/item/value) is a
  `List Triplet` in row order; float64 interaction values are idealised as `ℚ`;
* numpy's global random generator is a threaded state `ℕ` together with an
  abstract backend `RNG` providing `np.random.permutation` and
  `np.random.choice(n, size, replace=False)`; `np.random.seed` resets the state.
  The well-behavedness facts used about the backend (a permutation really
  permutes `0..n-1`; a `choice` without replacement returns `size` distinct
  indices below `n`) are captured by `RNG.Ok`;
* a `scipy.sparse.csr_matrix` is modelled by its shape plus entry function;
  building it from COO triplets sums duplicated coordinates, which is modelled
  operationally by folding the triplet list into an accumulating entry function;
* operations of the code that raise (`pd.concat` of an empty list, building a
  matrix from an empty frame) return `Except.error` / `none`;
* the IEEE NaN produced by `0/0` in the metrics is modelled by `Option`:
  `none` is a NaN result;
* the NDCG discounts `1/log2(r+2)` live in `ℝ` (float64 idealisation);
* intermediate values of the Python functions are given their own named
  definitions so that theorems can speak about them.
-/

namespace Repsys

/-- Embedding of one row of the interaction frame: columns user, item, value. -/
structure Triplet where
  user : ℕ
  item : ℕ
  value : ℚ
deriving DecidableEq

/-- Abstract backend for numpy's seeded global generator. `seedState` is
`np.random.seed`; `permFn st n` is `np.random.permutation(n)` run in state `st`,
returning the drawn list and the next state; `choiceFn st n size` is
`np.random.choice(n, size=size, replace=False)`. -/
structure RNG where
  seedState : ℕ → ℕ
  permFn : ℕ → ℕ → List ℕ × ℕ
  choiceFn : ℕ → ℕ → ℕ → List ℕ × ℕ

/-- Well-behavedness of the random backend: a permutation draw is a permutation
of `0..n-1`, and a without-replacement choice of `size ≤ n` items returns
`size` distinct indices below `n`. -/
def RNG.Ok (g : RNG) : Prop :=
  (∀ st n, ((g.permFn st n).1).Perm (List.range n)) ∧
  (∀ st n size, size ≤ n →
    ((g.choiceFn st n size).1.Nodup ∧ (g.choiceFn st n size).1.length = size ∧
      ∀ x ∈ (g.choiceFn st n size).1, x < n))

/-- A concrete well-behaved backend used to instantiate theorems on concrete
inputs: the identity permutation, and the choice of the first `size` indices. -/
def rngId : RNG where
  seedState := fun s => s
  permFn := fun st n => (List.range n, st)
  choiceFn := fun st _ size => (List.range size, st)

/-- The splitter parameters that the algorithms read
(`interaction_threshold` is stored by the constructor but never used). -/
structure SplitterParams where
  trainSplitProp : ℚ
  testHoldoutProp : ℚ
  minUserInteracts : ℕ
  minItemInteracts : ℕ
  seed : ℕ

/-- Worker for `uniqueFirst`: keep the values not seen before, tracking the
seen ones. -/
def uniqueFirstAux : List ℕ → List ℕ → List ℕ
  | [], _ => []
  | x :: xs, seen =>
    if x ∈ seen then uniqueFirstAux xs seen else x :: uniqueFirstAux xs (x :: seen)

/-- Distinct values of a list in order of first occurrence (`pd.unique`). -/
def uniqueFirst (l : List ℕ) : List ℕ :=
  uniqueFirstAux l []

/-- Sorted distinct user ids of a table: the index of
`df.groupby(user).size()` (pandas sorts group keys ascending). -/
def sortedUsers (tp : List Triplet) : List ℕ :=
  List.insertionSort (fun a b => a ≤ b) (uniqueFirst (tp.map (fun t => t.user)))

/-- Number of rows of `tp` whose `col` projection equals `x`
(`df.groupby(col).size()[x]`). -/
def countCol (tp : List Triplet) (col : Triplet → ℕ) (x : ℕ) : ℕ :=
  (tp.filter (fun t => decide (col t = x))).length

/-- Embedding of `DatasetSplitter._filter_triplets`: one pass dropping rows of
items below `min_item_interacts`, then one pass dropping rows of users below
`min_user_interacts` (counts recomputed after the item pass); returns the
surviving rows and the sorted distinct surviving users (the index of the
recomputed user count). -/
def filterTriplets (p : SplitterParams) (tp : List Triplet) : List Triplet × List ℕ :=
  let tp1 := if 0 < p.minItemInteracts then
      tp.filter (fun t => decide (p.minItemInteracts ≤ countCol tp (fun s => s.item) t.item))
    else tp
  let tp2 := if 0 < p.minUserInteracts then
      tp1.filter (fun t => decide (p.minUserInteracts ≤ countCol tp1 (fun s => s.user) t.user))
    else tp1
  (tp2, sortedUsers tp2)

/-- The rows of one user's group in `df.groupby(user)`, in original order. -/
def userRows (tp : List Triplet) (u : ℕ) : List Triplet :=
  tp.filter (fun t => decide (t.user = u))

/-- The groups of `df.groupby(user)`: keys ascending, rows of a group in
original order. -/
def groupsOf (tp : List Triplet) : List (ℕ × List Triplet) :=
  (sortedUsers tp).map (fun u => (u, userRows tp u))

/-- Embedding of `int(test_holdout_prop * n_items)` for a non-negative
proportion: `int` truncates toward zero, i.e. floors a non-negative float. -/
def holdoutSizeOf (prop : ℚ) (n : ℕ) : ℕ :=
  (⌊prop * (n : ℚ)⌋).toNat

/-- The per-user holdout draw: `set_seed(seed)` followed by
`np.random.choice(n, size=holdout_size, replace=False)`. Because of the
re-seed, the drawn index set is a function of the configured seed alone,
independent of the current generator state. -/
def userSel (g : RNG) (seed : ℕ) (prop : ℚ) (n : ℕ) : List ℕ :=
  (g.choiceFn (g.seedState seed) n (holdoutSizeOf prop n)).1

/-- Rows of `l` at the positions listed in `sel` (`group[idx]` for the boolean
mask `idx` that is true exactly on `sel`), original order kept. -/
def pickIdx (l : List Triplet) (sel : List ℕ) : List Triplet :=
  (l.enum.filter (fun q => decide (q.1 ∈ sel))).map Prod.snd

/-- Rows of `l` away from the positions listed in `sel`
(`group[np.logical_not(idx)]`). -/
def dropIdx (l : List Triplet) (sel : List ℕ) : List Triplet :=
  (l.enum.filter (fun q => decide (q.1 ∉ sel))).map Prod.snd

/-- The concatenated visible-training parts (`data_tr = pd.concat(tr_list)`)
of `_split_train_test`: for every user group, its rows away from the drawn
holdout positions. -/
def trainParts (g : RNG) (prop : ℚ) (seed : ℕ) (tp : List Triplet) : List Triplet :=
  ((groupsOf tp).map (fun grp => dropIdx grp.2 (userSel g seed prop grp.2.length))).flatten

/-- The concatenated holdout parts (`data_te = pd.concat(te_list)`) of
`_split_train_test`: for every user group, its rows at the drawn positions. -/
def holdParts (g : RNG) (prop : ℚ) (seed : ℕ) (tp : List Triplet) : List Triplet :=
  ((groupsOf tp).map (fun grp => pickIdx grp.2 (userSel g seed prop grp.2.length))).flatten

/-- The generator state after the loop of `_split_train_test`: every iteration
re-seeds and draws once. -/
def stateAfterLoop (g : RNG) (prop : ℚ) (seed : ℕ) (tp : List Triplet) (st : ℕ) : ℕ :=
  (groupsOf tp).foldl
    (fun _ grp => (g.choiceFn (g.seedState seed) grp.2.length (holdoutSizeOf prop grp.2.length)).2) st

/-- Embedding of `DatasetSplitter._split_train_test`: group by user; for every
user re-seed and draw `int(prop * n_items)` row positions without replacement
into the holdout part, the remaining rows into the visible-training part;
concatenate the per-group parts. `pd.concat` of an empty list of frames
raises `ValueError`, modelled by `Except.error`. -/
def splitTrainTest (g : RNG) (prop : ℚ) (seed : ℕ) (tp : List Triplet) (st : ℕ) :
    Except String (List Triplet × List Triplet) × ℕ :=
  if (groupsOf tp).isEmpty then (Except.error "No objects to concatenate", st)
  else (Except.ok (trainParts g prop seed tp, holdParts g prop seed tp),
    stateAfterLoop g prop seed tp st)

/-- Embedding of `DatasetSplitter._filter_interact_data`: keep rows by the
given users, then rows whose item is in the training item universe, then
re-apply the threshold filter; returns the surviving rows and their sorted
distinct users (the activity index). -/
def filterInteractData (p : SplitterParams) (data : List Triplet) (users : List ℕ)
    (itemIdx : List ℕ) : List Triplet × List ℕ :=
  let i1 := data.filter (fun t => decide (t.user ∈ users))
  let i2 := i1.filter (fun t => decide (t.item ∈ itemIdx))
  filterTriplets p i2

/-- Python's `round` on a rational value: round half to even. -/
def pyRound (q : ℚ) : ℤ :=
  if q - (⌊q⌋ : ℚ) < 1/2 then ⌊q⌋
  else if 1/2 < q - (⌊q⌋ : ℚ) then ⌊q⌋ + 1
  else if Even ⌊q⌋ then ⌊q⌋ else ⌊q⌋ + 1

/-- The users surviving the initial threshold filter of `split`, sorted
(the index of `user_activity`). -/
def postFilterUsers (p : SplitterParams) (data : List Triplet) : List ℕ :=
  (filterTriplets p data).2

/-- The shuffled surviving users `user_index[idx_perm]` of `split`
(re-seeded permutation applied to the sorted survivor list). -/
def shuffledUsers (g : RNG) (p : SplitterParams) (data : List Triplet) : List ℕ :=
  ((g.permFn (g.seedState p.seed) (postFilterUsers p data).length).1).map
    (fun j => (postFilterUsers p data).getD j 0)

/-- `n_holdout_users = round(n_users * (1 - train_split_prop) / 2)`. -/
def holdoutUserCount (p : SplitterParams) (data : List Triplet) : ℕ :=
  (pyRound (((postFilterUsers p data).length : ℚ) * (1 - p.trainSplitProp) / 2)).toNat

/-- The training-user block `user_index[: n - 2h]`. -/
def trainBlock (g : RNG) (p : SplitterParams) (data : List Triplet) : List ℕ :=
  (shuffledUsers g p data).take
    ((postFilterUsers p data).length - 2 * holdoutUserCount p data)

/-- The validation-user block `user_index[n - 2h : n - h]`. -/
def vadBlock (g : RNG) (p : SplitterParams) (data : List Triplet) : List ℕ :=
  (((shuffledUsers g p data).drop
    ((postFilterUsers p data).length - 2 * holdoutUserCount p data)).take
    (holdoutUserCount p data))

/-- The test-user block `user_index[n - h :]`. -/
def testBlock (g : RNG) (p : SplitterParams) (data : List Triplet) : List ℕ :=
  (shuffledUsers g p data).drop
    ((postFilterUsers p data).length - holdoutUserCount p data)

/-- `train_data`: the surviving interactions of the training-block users. -/
def trainDataOf (g : RNG) (p : SplitterParams) (data : List Triplet) : List Triplet :=
  (filterTriplets p data).1.filter (fun t => decide (t.user ∈ trainBlock g p data))

/-- `item_index = pd.unique(train_data[item])`: the training item universe in
first-occurrence order. -/
def itemIdxOf (g : RNG) (p : SplitterParams) (data : List Triplet) : List ℕ :=
  uniqueFirst ((trainDataOf g p data).map (fun t => t.item))

/-- The result of `DatasetSplitter.split`: the three user-id sequences and the
training / holdout triplet tables of the three partitions. -/
structure SplitOutput where
  trainUsers : List ℕ
  trainData : List Triplet
  vadUsers : List ℕ
  vadTrain : List Triplet
  vadHoldout : List Triplet
  testUsers : List ℕ
  testTrain : List Triplet
  testHoldout : List Triplet
deriving DecidableEq

/-- Embedding of `DatasetSplitter.split`: threshold-filter the table; re-seed
and shuffle the surviving users; slice off `round(n * (1-train_split_prop)/2)`
validation and as many test users, the initial block being the training users;
restrict the item universe to the training users' items; per-partition filter
and per-user holdout split for validation and test. Errors from
`_split_train_test` propagate; the numpy state is threaded and the returned
validation / test users are the ones surviving `_filter_interact_data`. -/
def splitAll (g : RNG) (p : SplitterParams) (data : List Triplet) (st : ℕ) :
    Except String SplitOutput × ℕ :=
  let st2 := (g.permFn (g.seedState p.seed) (postFilterUsers p data).length).2
  let vadF := filterInteractData p (filterTriplets p data).1 (vadBlock g p data)
    (itemIdxOf g p data)
  match splitTrainTest g p.testHoldoutProp p.seed vadF.1 st2 with
  | (Except.error e, st3) => (Except.error e, st3)
  | (Except.ok vpair, st3) =>
    let teF := filterInteractData p (filterTriplets p data).1 (testBlock g p data)
      (itemIdxOf g p data)
    match splitTrainTest g p.testHoldoutProp p.seed teF.1 st3 with
    | (Except.error e, st4) => (Except.error e, st4)
    | (Except.ok tpair, st4) =>
      (Except.ok ⟨trainBlock g p data, trainDataOf g p data, vadF.2, vpair.1, vpair.2,
        teF.2, tpair.1, tpair.2⟩, st4)

/-- A sparse matrix, modelled by its shape and entry function. -/
structure Mat where
  rows : ℕ
  cols : ℕ
  entry : ℕ → ℕ → ℚ

/-- Accumulate one COO triplet into an entry function, adding its value at its
coordinate (scipy's duplicate-coordinate summation). -/
def addEntry (f : ℕ → ℕ → ℚ) (t : Triplet) : ℕ → ℕ → ℚ :=
  fun u i => if u = t.user ∧ i = t.item then f u i + t.value else f u i

/-- The entry function assembled from a COO triplet list starting from the zero
matrix. -/
def cooEntries (df : List Triplet) : ℕ → ℕ → ℚ :=
  df.foldl addEntry (fun _ _ => 0)

/-- Embedding of `df["user"].max()` over a non-empty frame. -/
def maxUser (df : List Triplet) : ℕ :=
  (df.map (fun t => t.user)).foldl max 0

/-- Embedding of `df_to_matrix`: shape `(df.user.max() + 1, n_items)`, entries
the summed COO values. On an empty frame `df.user.max()` is NaN and the
`csr_matrix` constructor raises, modelled by `none`. -/
def dfToMatrix (df : List Triplet) (nItems : ℕ) : Option Mat :=
  match df with
  | [] => none
  | _ => some ⟨maxUser df + 1, nItems, cooEntries df⟩

/-- The ranked column positions of one user row: indices `0..n-1` sorted by
descending predicted score, ties broken deterministically. Its `take k` prefix
is a top-k set in the sense of `bn.argpartition(-X_pred, k)[..., :k]`: a set of
`k` positions every one of whose scores is at least every remaining score. -/
def rankedIdx (pred : List ℚ) : List ℕ :=
  List.insertionSort (fun a b => pred.getD b 0 ≤ pred.getD a 0) (List.range pred.length)

/-- The top-k column positions of one user row (`idx[:, :k]`), in descending
score order (`idx_topk` of `Evaluator.ndcg`). -/
def topkIdx (pred : List ℚ) (k : ℕ) : List ℕ :=
  (rankedIdx pred).take k

/-- The boolean row `X_pred_binary` of `Evaluator.recall`: true exactly on the
top-k positions. -/
def predBinary (pred : List ℚ) (k : ℕ) : List Bool :=
  (List.range pred.length).map (fun i => decide (i ∈ topkIdx pred k))

/-- The boolean row `X_true_binary = heldout_batch > 0`. -/
def trueBinary (hold : List ℚ) : List Bool :=
  hold.map (fun x => decide (0 < x))

/-- The hit count `tmp` of `Evaluator.recall`:
`(X_true_binary AND X_pred_binary).sum()`. -/
def hitCount (pred hold : List ℚ) (k : ℕ) : ℕ :=
  (List.zipWith and (predBinary pred k) (trueBinary hold)).count true

/-- The recall denominator `min(k, X_true_binary.sum())`. -/
def recallDen (hold : List ℚ) (k : ℕ) : ℕ :=
  min k ((trueBinary hold).count true)

/-- Embedding of one user's row of `Evaluator.recall`. A zero denominator is
float `0/0 = NaN`, modelled by `none`. -/
def recallUser (pred hold : List ℚ) (k : ℕ) : Option ℚ :=
  if recallDen hold k = 0 then none
  else some ((hitCount pred hold k : ℚ) / (recallDen hold k : ℚ))

/-- `Evaluator.recall` over whole matrices, one score per user row. -/
def recallRows (preds holds : List (List ℚ)) (k : ℕ) : List (Option ℚ) :=
  List.zipWith (fun p h => recallUser p h k) preds holds

/-- The rank discounts `tp = 1 / log2(arange(2, k + 2))` of `Evaluator.ndcg`,
as a function of the 0-based rank. -/
noncomputable def tpDiscount (r : ℕ) : ℝ :=
  1 / Real.logb 2 ((r : ℝ) + 2)

/-- The `DCG` sum of `Evaluator.ndcg`: the holdout values at the top-k
positions (descending predicted score) weighted by the rank discounts. -/
noncomputable def dcgOf (pred hold : List ℚ) (k : ℕ) : ℝ :=
  ((List.range k).map
    (fun r => ((hold.getD ((topkIdx pred k).getD r 0) 0 : ℚ) : ℝ) * tpDiscount r)).sum

/-- `heldout_batch.getnnz(axis=1)` for one row: the number of stored non-zero
entries. -/
def nnzOf (hold : List ℚ) : ℕ :=
  (hold.filter (fun x => decide (x ≠ 0))).length

/-- The `IDCG` sum of `Evaluator.ndcg`: the first `min(getnnz, k)` discounts. -/
noncomputable def idcgOf (hold : List ℚ) (k : ℕ) : ℝ :=
  ((List.range (min (nnzOf hold) k)).map tpDiscount).sum

/-- Embedding of one user's row of `Evaluator.ndcg`: `DCG / IDCG`, where a zero
`IDCG` gives float NaN, modelled by `none`. -/
noncomputable def ndcgUser (pred hold : List ℚ) (k : ℕ) : Option ℝ :=
  if idcgOf hold k = 0 then none else some (dcgOf pred hold k / idcgOf hold k)

/-- `Evaluator.ndcg` over whole matrices, one score per user row. -/
noncomputable def ndcgRows (preds holds : List (List ℚ)) (k : ℕ) : List (Option ℝ) :=
  List.zipWith (fun p h => ndcgUser p h k) preds holds

/-- Embedding of the `np.mean` aggregation of `Evaluator.print_results` over a
vector of per-user scores: NaN inputs (and the empty mean) propagate to a NaN
aggregate. -/
def meanOpt (l : List (Option ℚ)) : Option ℚ :=
  if l.isEmpty ∨ l.any (fun x => x.isNone) then none
  else some ((l.map (fun x => x.getD 0)).sum / (l.length : ℚ))

/-- The column positions holding a non-zero value in a holdout row (the set
`H` of the specification). -/
def nonzeroCols (hold : List ℚ) : Finset ℕ :=
  ((List.range hold.length).filter (fun i => decide (hold.getD i 0 ≠ 0))).toFinset

/-- The top-k positions of a prediction row as a set (the set `T` of the
specification). -/
def topkSet (pred : List ℚ) (k : ℕ) : Finset ℕ :=
  (topkIdx pred k).toFinset

/-- Characters removed by Python's `str.strip` (the common whitespace). -/
def isStripped (c : Char) : Bool :=
  c == ' ' || c == '\t' || c == '\n' || c == '\r'

/-- Python's `line.strip()` on a list of characters. -/
def pyStrip (l : List Char) : List Char :=
  ((l.dropWhile isStripped).reverse.dropWhile isStripped).reverse

/-- Split a character stream at every newline, keeping a trailing empty chunk
when the stream ends in a newline. -/
def splitNL : List Char → List (List Char)
  | [] => [[]]
  | c :: rest =>
    if c = '\n' then [] :: splitNL rest
    else
      match splitNL rest with
      | [] => [[c]]
      | l :: ls => (c :: l) :: ls

/-- Iterating a Python file handle yields its newline-terminated chunks; a
trailing chunk exists only when the file does not end in a newline. -/
def pyLines (s : List Char) : List (List Char) :=
  if (splitNL s).getLast? = some [] then (splitNL s).dropLast else splitNL s

/-- Embedding of `save_index`: write each identifier (the keys of the frozen
bidict, in position order) followed by a newline. -/
def saveIndex (ids : List (List Char)) : List Char :=
  ids.foldr (fun s acc => s ++ '\n' :: acc) []

/-- Embedding of `load_index`: enumerate the lines of the file, assigning
position `i` to the `i`-th stripped line. -/
def loadIndex (content : List Char) : List (List Char) :=
  (pyLines content).map pyStrip

/-! ### C5: determinism of the splitter -/

/-- C5: for every random backend, parameter setting and input table, the result
of `DatasetSplitter.split` does not depend on the ambient numpy generator
state, because the code re-seeds (`set_seed(self.seed)`) before the user
shuffle and before each per-user holdout draw: two independent runs from
arbitrary generator states return identical partitioned user sequences and
identical training / holdout triplet tables for all three partitions. -/
theorem split_deterministic (g : RNG) (p : SplitterParams) (data : List Triplet)
    (st₀ st₁ : ℕ) :
    (splitAll g p data st₀).1 = (splitAll g p data st₁).1 := rfl

/-! ### C10: duplicate coordinates are summed by `df_to_matrix` -/

lemma foldl_addEntry (df : List Triplet) (f : ℕ → ℕ → ℚ) (u i : ℕ) :
    (df.foldl addEntry f) u i =
      f u i + ((df.filter (fun t => decide (t.user = u ∧ t.item = i))).map
        (fun t => t.value)).sum := by
  induction df generalizing f with
  | nil => simp
  | cons t ts ih =>
    rw [List.foldl_cons, ih]
    by_cases h : t.user = u ∧ t.item = i
    · have h' : u = t.user ∧ i = t.item := ⟨h.1.symm, h.2.symm⟩
      have e1 : addEntry f t u i = f u i + t.value := if_pos h'
      have e2 : (t :: ts).filter (fun t => decide (t.user = u ∧ t.item = i)) =
          t :: ts.filter (fun t => decide (t.user = u ∧ t.item = i)) := by
        simp [List.filter_cons, h]
      rw [e1, e2, List.map_cons, List.sum_cons]
      ring
    · have h' : ¬(u = t.user ∧ i = t.item) := fun hc => h ⟨hc.1.symm, hc.2.symm⟩
      have e1 : addEntry f t u i = f u i := if_neg h'
      have e2 : (t :: ts).filter (fun t => decide (t.user = u ∧ t.item = i)) =
          ts.filter (fun t => decide (t.user = u ∧ t.item = i)) := by
        simp [List.filter_cons, h]
      rw [e1, e2]

lemma cooEntries_eq_sum (df : List Triplet) (u i : ℕ) :
    cooEntries df u i = ((df.filter (fun t => decide (t.user = u ∧ t.item = i))).map
      (fun t => t.value)).sum := by
  unfold cooEntries
  rw [foldl_addEntry]
  simp

lemma dfToMatrix_eq (df : List Triplet) (nItems : ℕ) (M : Mat)
    (h : dfToMatrix df nItems = some M) :
    M = ⟨maxUser df + 1, nItems, cooEntries df⟩ := by
  cases df with
  | nil => exact absurd h (by simp [dfToMatrix])
  | cons t ts => exact (Option.some.inj h).symm

lemma dfToMatrix_entry_eq_sum (df : List Triplet) (nItems : ℕ) (M : Mat)
    (h : dfToMatrix df nItems = some M) (u i : ℕ) :
    M.entry u i = ((df.filter (fun t => decide (t.user = u ∧ t.item = i))).map
      (fun t => t.value)).sum := by
  rw [dfToMatrix_eq df nItems M h]
  exact cooEntries_eq_sum df u i

/-- C10: whenever `df_to_matrix` succeeds, the entry of the resulting matrix at
a coordinate is the sum of the values of all triplets carrying that
coordinate — scipy's COO-to-CSR conversion sums duplicates, it does not keep
the last write. -/
theorem df_to_matrix_sums_duplicate_coordinates (df : List Triplet) (nItems : ℕ) (M : Mat)
    (h : dfToMatrix df nItems = some M) (u i : ℕ) :
    M.entry u i = ((df.filter (fun t => decide (t.user = u ∧ t.item = i))).map
      (fun t => t.value)).sum :=
  dfToMatrix_entry_eq_sum df nItems M h u i

/-- Witness for C10 at a table with a duplicated coordinate: the entry is the
sum of both values. -/
theorem df_to_matrix_sums_duplicate_coordinates_witness :
    dfToMatrix [⟨0, 0, 1⟩, ⟨0, 0, 2⟩] 2 =
      some ⟨1, 2, cooEntries [⟨0, 0, 1⟩, ⟨0, 0, 2⟩]⟩ ∧
    (Mat.mk 1 2 (cooEntries [⟨0, 0, 1⟩, ⟨0, 0, 2⟩])).entry 0 0 =
      ((([⟨0, 0, 1⟩, ⟨0, 0, 2⟩] : List Triplet).filter
        (fun t => decide (t.user = 0 ∧ t.item = 0))).map (fun t => t.value)).sum :=
  ⟨rfl, df_to_matrix_sums_duplicate_coordinates [⟨0, 0, 1⟩, ⟨0, 0, 2⟩] 2
    ⟨1, 2, cooEntries [⟨0, 0, 1⟩, ⟨0, 0, 2⟩]⟩ rfl 0 0⟩

/-! ### C8: index persist / restore round trip -/

lemma splitNL_append (a r : List Char) (h : '\n' ∉ a) :
    splitNL (a ++ '\n' :: r) = a :: splitNL r := by
  induction a with
  | nil => simp [splitNL]
  | cons c a ih =>
    have hc : ¬c = '\n' := fun hh => h (hh ▸ List.mem_cons_self c a)
    have ha : '\n' ∉ a := fun hh => h (List.mem_cons_of_mem c hh)
    show splitNL (c :: (a ++ '\n' :: r)) = (c :: a) :: splitNL r
    show (if c = '\n' then [] :: splitNL (a ++ '\n' :: r)
      else match splitNL (a ++ '\n' :: r) with
        | [] => [[c]]
        | l :: ls => (c :: l) :: ls) = (c :: a) :: splitNL r
    rw [if_neg hc, ih ha]

lemma saveIndex_splitNL (ids : List (List Char)) (h : ∀ s ∈ ids, '\n' ∉ s) :
    splitNL (saveIndex ids) = ids ++ [[]] := by
  induction ids with
  | nil => rfl
  | cons s ids ih =>
    have hs : '\n' ∉ s := h s (List.mem_cons_self s ids)
    have hrest : ∀ x ∈ ids, '\n' ∉ x := fun x hx => h x (List.mem_cons_of_mem s hx)
    show splitNL (s ++ '\n' :: saveIndex ids) = (s :: ids) ++ [[]]
    rw [splitNL_append s _ hs, ih hrest]
    rfl

/-- C8 counterexample: an identifier with a leading space does not survive the
persist-then-restore round trip, because `load_index` strips each line: the
restored index maps the stripped string to position 0, not the original
identifier. -/
theorem save_load_index_not_roundtrip :
    loadIndex (saveIndex [[' ', 'a']]) = [['a']] ∧
    ([['a']] : List (List Char)) ≠ [[' ', 'a']] := by
  constructor
  · decide
  · decide

/-- C8 amended: the persist-then-restore round trip is exact for every built
index whose identifiers contain no newline and carry no leading or trailing
whitespace (`line.strip()`-invariance); position order is preserved. -/
theorem save_load_index_roundtrip (ids : List (List Char))
    (h : ∀ s ∈ ids, '\n' ∉ s ∧ pyStrip s = s) :
    loadIndex (saveIndex ids) = ids := by
  unfold loadIndex pyLines
  rw [saveIndex_splitNL ids (fun s hs => (h s hs).1)]
  rw [List.getLast?_concat]
  simp only [if_pos, List.dropLast_concat]
  have hmap : List.map pyStrip ids = List.map id ids :=
    List.map_congr_left (fun s hs => (h s hs).2)
  simpa using hmap

/-- Witness for the amended C8 at a concrete two-identifier index. -/
theorem save_load_index_roundtrip_witness :
    (∀ s ∈ ([['a'], ['b', 'c']] : List (List Char)), '\n' ∉ s ∧ pyStrip s = s) ∧
    loadIndex (saveIndex [['a'], ['b', 'c']]) = [['a'], ['b', 'c']] :=
  ⟨by decide, save_load_index_roundtrip _ (by decide)⟩

/-! ### C3: the degenerate empty-holdout row is a silent NaN -/

/-- C3 evidence: for a user whose holdout row has no positive entry, the code
computes `0 / min(k, 0)`, a float NaN (`none` here), for both recall and NDCG,
and `np.mean` propagates it into the aggregate statistic — there is no
explicit handling. -/
theorem recall_ndcg_nan_on_empty_holdout :
    recallRows [[1, 0]] [[0, 0]] 1 = [none] ∧
    meanOpt (recallRows [[1, 0]] [[0, 0]] 1) = none ∧
    ndcgRows [[1, 0]] [[0, 0]] 1 = [none] := by
  refine ⟨by decide, by decide, ?_⟩
  norm_num [ndcgRows, ndcgUser, idcgOf, nnzOf]

/-! ### Ranking lemmas shared by the recall / NDCG claims -/

lemma rankedIdx_perm (pred : List ℚ) :
    (rankedIdx pred).Perm (List.range pred.length) :=
  List.perm_insertionSort _ _

lemma rankedIdx_length (pred : List ℚ) : (rankedIdx pred).length = pred.length := by
  rw [(rankedIdx_perm pred).length_eq, List.length_range]

lemma rankedIdx_nodup (pred : List ℚ) : (rankedIdx pred).Nodup :=
  ((rankedIdx_perm pred).nodup_iff).mpr (List.nodup_range _)

lemma rankedIdx_sorted (pred : List ℚ) :
    (rankedIdx pred).Sorted (fun a b => pred.getD b 0 ≤ pred.getD a 0) := by
  haveI : IsTotal ℕ (fun a b => pred.getD b 0 ≤ pred.getD a 0) :=
    ⟨fun a b => le_total _ _⟩
  haveI : IsTrans ℕ (fun a b => pred.getD b 0 ≤ pred.getD a 0) :=
    ⟨fun _ _ _ hab hbc => le_trans hbc hab⟩
  exact List.sorted_insertionSort _ _

lemma topkIdx_nodup (pred : List ℚ) (k : ℕ) : (topkIdx pred k).Nodup :=
  List.Nodup.sublist (List.take_sublist _ _) (rankedIdx_nodup pred)

lemma mem_topkIdx_lt (pred : List ℚ) (k : ℕ) {i : ℕ} (h : i ∈ topkIdx pred k) :
    i < pred.length := by
  have h2 : i ∈ rankedIdx pred := List.mem_of_mem_take h
  have h3 := (rankedIdx_perm pred).mem_iff.mp h2
  simpa using h3

lemma topkIdx_length (pred : List ℚ) (k : ℕ) (h : k ≤ pred.length) :
    (topkIdx pred k).length = k := by
  simp [topkIdx, List.length_take, rankedIdx_length, h]

/-- Every member of the top-k prefix scores at least as high as every
non-member below the row length. -/
lemma topk_dominates (pred : List ℚ) (k : ℕ) {i : ℕ} (hi : i ∈ topkIdx pred k)
    {j : ℕ} (hj : j < pred.length) (hjn : j ∉ topkIdx pred k) :
    pred.getD j 0 ≤ pred.getD i 0 := by
  have hjr : j ∈ rankedIdx pred := (rankedIdx_perm pred).mem_iff.mpr (List.mem_range.mpr hj)
  have hsplit : rankedIdx pred = topkIdx pred k ++ (rankedIdx pred).drop k :=
    (List.take_append_drop k _).symm
  have hjd : j ∈ (rankedIdx pred).drop k := by
    rcases List.mem_append.mp (hsplit ▸ hjr) with h | h
    · exact absurd h hjn
    · exact h
  have hp := rankedIdx_sorted pred
  rw [List.Sorted, hsplit] at hp
  exact (List.pairwise_append.mp hp).2.2 i hi j hjd

lemma countP_eq_length_filter_range (l : List ℚ) (p : ℚ → Bool) :
    l.countP p = ((List.range l.length).filter (fun i => p (l.getD i 0))).length := by
  induction l with
  | nil => simp
  | cons x xs ih =>
    rw [List.countP_cons, List.length_cons, List.range_succ_eq_map, List.filter_cons]
    have hfun : ((fun i => p ((x :: xs).getD i 0)) ∘ Nat.succ) = (fun i => p (xs.getD i 0)) := by
      funext i
      simp
    rw [List.filter_map, hfun]
    by_cases hx : p x <;> simp [hx, ih]

lemma map_getD_range (l : List ℚ) (f : ℚ → Bool) :
    l.map f = (List.range l.length).map (fun i => f (l.getD i 0)) := by
  induction l with
  | nil => simp
  | cons x xs ih =>
    rw [List.map_cons, List.length_cons, List.range_succ_eq_map, List.map_cons,
      List.map_map]
    have hfun : ((fun i => f ((x :: xs).getD i 0)) ∘ Nat.succ) = (fun i => f (xs.getD i 0)) := by
      funext i
      simp
    rw [hfun, ← ih]
    simp

lemma trueBinary_count (hold : List ℚ) :
    (trueBinary hold).count true = hold.countP (fun x => decide (0 < x)) := by
  unfold trueBinary
  rw [List.count_eq_countP, List.countP_map]
  exact List.countP_congr (fun a _ => by simp)

lemma nnzOf_eq_card (hold : List ℚ) : nnzOf hold = (nonzeroCols hold).card := by
  unfold nnzOf nonzeroCols
  rw [List.toFinset_card_of_nodup (List.Nodup.filter _ (List.nodup_range _))]
  have h1 : (hold.filter (fun x => decide (x ≠ 0))).length =
      hold.countP (fun x => decide (x ≠ 0)) := (List.countP_eq_length_filter _ _).symm
  rw [h1, countP_eq_length_filter_range hold (fun x => decide (x ≠ 0))]

lemma trueCount_eq_card (hold : List ℚ) (hnn : ∀ x ∈ hold, 0 ≤ x) :
    (trueBinary hold).count true = (nonzeroCols hold).card := by
  rw [trueBinary_count, ← nnzOf_eq_card]
  unfold nnzOf
  rw [← List.countP_eq_length_filter]
  refine List.countP_congr (fun a ha => ?_)
  have h0 : 0 ≤ a := hnn a ha
  by_cases h : a = 0
  · simp [h]
  · simp [h, lt_of_le_of_ne h0 (Ne.symm h)]

lemma recallDen_eq (hold : List ℚ) (k : ℕ) (hnn : ∀ x ∈ hold, 0 ≤ x) :
    recallDen hold k = min k (nonzeroCols hold).card := by
  unfold recallDen
  rw [trueCount_eq_card hold hnn]

lemma topkSet_card_eq (pred : List ℚ) (k : ℕ) (h : k ≤ pred.length) :
    (topkSet pred k).card = k := by
  unfold topkSet
  rw [List.toFinset_card_of_nodup (topkIdx_nodup pred k), topkIdx_length pred k h]

lemma mem_topkSet (pred : List ℚ) (k i : ℕ) :
    i ∈ topkSet pred k ↔ i ∈ topkIdx pred k := by
  simp [topkSet]

lemma mem_nonzeroCols (hold : List ℚ) (i : ℕ) :
    i ∈ nonzeroCols hold ↔ i < hold.length ∧ hold.getD i 0 ≠ 0 := by
  simp [nonzeroCols, List.mem_filter]

lemma getD_mem_of_lt (l : List ℚ) (i : ℕ) (h : i < l.length) : l.getD i 0 ∈ l := by
  simp only [List.getD_eq_getElem?_getD, List.getElem?_eq_getElem h, Option.getD_some]
  exact List.getElem_mem h

lemma hitCount_eq_card (pred hold : List ℚ) (k : ℕ) (hlen : hold.length = pred.length)
    (hnn : ∀ x ∈ hold, 0 ≤ x) :
    hitCount pred hold k = ((topkSet pred k) ∩ nonzeroCols hold).card := by
  unfold hitCount predBinary
  have htb : trueBinary hold =
      (List.range pred.length).map (fun i => decide (0 < hold.getD i 0)) := by
    unfold trueBinary
    rw [map_getD_range, hlen]
  rw [htb, List.zipWith_map, List.zipWith_same, List.count_eq_countP, List.countP_map]
  have hq : List.countP
      ((fun b => b == true) ∘ fun a => and (decide (a ∈ topkIdx pred k)) (decide (0 < hold.getD a 0)))
      (List.range pred.length) =
      List.countP (fun a => decide (a ∈ topkIdx pred k) && decide (0 < hold.getD a 0))
      (List.range pred.length) :=
    List.countP_congr (fun a _ => by simp)
  rw [hq, List.countP_eq_length_filter]
  have hnodup : ((List.range pred.length).filter
      (fun a => decide (a ∈ topkIdx pred k) && decide (0 < hold.getD a 0))).Nodup :=
    List.Nodup.filter _ (List.nodup_range _)
  rw [← List.toFinset_card_of_nodup hnodup]
  congr 1
  ext i
  simp only [List.mem_toFinset, List.mem_filter, List.mem_range, Bool.and_eq_true,
    decide_eq_true_eq, Finset.mem_inter, mem_topkSet, mem_nonzeroCols]
  constructor
  · rintro ⟨_, hT, hpos⟩
    exact ⟨hT, by rw [hlen]; exact mem_topkIdx_lt pred k hT, ne_of_gt hpos⟩
  · rintro ⟨hT, hil, hne⟩
    refine ⟨mem_topkIdx_lt pred k hT, hT, ?_⟩
    have hm : hold.getD i 0 ∈ hold := getD_mem_of_lt hold i hil
    exact lt_of_le_of_ne (hnn _ hm) (Ne.symm hne)

/-! ### C2: the per-user recall formula -/

/-- C2: under the shape and non-degeneracy conditions (holdout same length as
the prediction row, `1 ≤ k < n` as `bn.argpartition` requires, non-negative
holdout values, at least one non-zero holdout column), the recall of a user is
`|T ∩ H| / min(k, |H|)`, where `T` is a set of `k` column positions all of
whose scores dominate every other column and `H` is the set of non-zero
holdout columns. -/
theorem recall_matches_spec_formula (pred hold : List ℚ) (k : ℕ)
    (hlen : hold.length = pred.length) (hk1 : 1 ≤ k) (hkn : k < pred.length)
    (hnn : ∀ x ∈ hold, 0 ≤ x) (hH : 0 < (nonzeroCols hold).card) :
    recallUser pred hold k =
      some (((topkSet pred k ∩ nonzeroCols hold).card : ℚ) /
        ((min k (nonzeroCols hold).card : ℕ) : ℚ)) ∧
    (topkSet pred k).card = k ∧
    ∀ i ∈ topkSet pred k, ∀ j, j < pred.length → j ∉ topkSet pred k →
      pred.getD j 0 ≤ pred.getD i 0 := by
  have hden : recallDen hold k = min k (nonzeroCols hold).card := recallDen_eq hold k hnn
  have hden0 : ¬ recallDen hold k = 0 := by
    rw [hden]
    omega
  refine ⟨?_, topkSet_card_eq pred k (le_of_lt hkn), ?_⟩
  · unfold recallUser
    rw [if_neg hden0, hitCount_eq_card pred hold k hlen hnn, hden]
  · intro i hi j hj hjn
    exact topk_dominates pred k ((mem_topkSet pred k i).mp hi) hj
      (fun hc => hjn ((mem_topkSet pred k j).mpr hc))

/-- Witness for C2 at `X_pred = [2,1]`, `holdout = [0,1]`, `k = 1`. -/
theorem recall_matches_spec_formula_witness :
    (∀ x ∈ ([0, 1] : List ℚ), 0 ≤ x) ∧ 0 < (nonzeroCols [0, 1]).card ∧
    (recallUser [2, 1] [0, 1] 1 =
      some (((topkSet [2, 1] 1 ∩ nonzeroCols [0, 1]).card : ℚ) /
        ((min 1 (nonzeroCols [0, 1]).card : ℕ) : ℚ)) ∧
    (topkSet [2, 1] 1).card = 1 ∧
    ∀ i ∈ topkSet [2, 1] 1, ∀ j, j < ([2, 1] : List ℚ).length → j ∉ topkSet [2, 1] 1 →
      ([2, 1] : List ℚ).getD j 0 ≤ ([2, 1] : List ℚ).getD i 0) :=
  ⟨by decide, by decide,
    recall_matches_spec_formula [2, 1] [0, 1] 1 (by decide) (by decide) (by decide)
      (by decide) (by decide)⟩

/-! ### C7: boundedness of recall and NDCG -/

lemma getDN_mem_of_lt (l : List ℕ) (i : ℕ) (h : i < l.length) : l.getD i 0 ∈ l := by
  simp only [List.getD_eq_getElem?_getD, List.getElem?_eq_getElem h, Option.getD_some]
  exact List.getElem_mem h

lemma getD_inj_of_nodup (l : List ℕ) (hl : l.Nodup) {i j : ℕ}
    (hi : i < l.length) (hj : j < l.length) (h : l.getD i 0 = l.getD j 0) : i = j := by
  have hi' : l.getD i 0 = l[i] := by
    simp [List.getD_eq_getElem?_getD, List.getElem?_eq_getElem hi]
  have hj' : l.getD j 0 = l[j] := by
    simp [List.getD_eq_getElem?_getD, List.getElem?_eq_getElem hj]
  rw [hi', hj'] at h
  have hinj := List.nodup_iff_injective_getElem.mp hl
  have heq := @hinj ⟨i, hi⟩ ⟨j, hj⟩ h
  simpa using congrArg Fin.val heq

lemma tpDiscount_pos (r : ℕ) : 0 < tpDiscount r := by
  unfold tpDiscount
  have hc : (0:ℝ) ≤ (r : ℝ) := Nat.cast_nonneg r
  have hlog : 0 < Real.logb 2 ((r : ℝ) + 2) :=
    Real.logb_pos (by norm_num) (by linarith)
  positivity

lemma tpDiscount_antitone {r s : ℕ} (h : r ≤ s) : tpDiscount s ≤ tpDiscount r := by
  unfold tpDiscount
  have hc : (0:ℝ) ≤ (r : ℝ) := Nat.cast_nonneg r
  have hcast : (r : ℝ) ≤ (s : ℝ) := Nat.cast_le.mpr h
  have hlog_r : 0 < Real.logb 2 ((r : ℝ) + 2) :=
    Real.logb_pos (by norm_num) (by linarith)
  have hle : Real.logb 2 ((r : ℝ) + 2) ≤ Real.logb 2 ((s : ℝ) + 2) :=
    Real.logb_le_logb_of_le (by norm_num) (by linarith) (by linarith)
  exact one_div_le_one_div_of_le hlog_r hle

lemma list_sum_range_eq (f : ℕ → ℝ) (n : ℕ) :
    ((List.range n).map f).sum = ∑ r in Finset.range n, f r := by
  induction n with
  | zero => simp
  | succ m ih =>
    rw [List.range_succ, List.map_append, List.sum_append, Finset.sum_range_succ, ih]
    simp

lemma dcgOf_eq_finsum (pred hold : List ℚ) (k : ℕ) :
    dcgOf pred hold k = ∑ r in Finset.range k,
      ((hold.getD ((topkIdx pred k).getD r 0) 0 : ℚ) : ℝ) * tpDiscount r :=
  list_sum_range_eq _ k

lemma idcgOf_eq_finsum (hold : List ℚ) (k : ℕ) :
    idcgOf hold k = ∑ r in Finset.range (min (nnzOf hold) k), tpDiscount r :=
  list_sum_range_eq _ _

lemma idcg_pos (hold : List ℚ) (k : ℕ) (h : 0 < min (nnzOf hold) k) :
    0 < idcgOf hold k := by
  rw [idcgOf_eq_finsum]
  exact Finset.sum_pos (fun r _ => tpDiscount_pos r)
    (Finset.nonempty_range_iff.mpr (Nat.pos_iff_ne_zero.mp h))

lemma sum_antitone_le_range_aux (f : ℕ → ℝ) (hf : ∀ a b : ℕ, a ≤ b → f b ≤ f a) :
    ∀ (n : ℕ) (S : Finset ℕ), S.card = n → ∑ i in S, f i ≤ ∑ i in Finset.range n, f i := by
  intro n
  induction n with
  | zero =>
    intro S hcard
    rw [Finset.card_eq_zero.mp hcard]
    simp
  | succ m ih =>
    intro S hcard
    have hne : S.Nonempty := Finset.card_pos.mp (by omega)
    have hM := S.max'_mem hne
    have herase : (S.erase (S.max' hne)).card = m := by
      rw [Finset.card_erase_of_mem hM, hcard]
      omega
    have hmM : m ≤ S.max' hne := by
      by_contra hlt
      push_neg at hlt
      have hsub : S ⊆ Finset.range m :=
        fun x hx => Finset.mem_range.mpr (lt_of_le_of_lt (S.le_max' x hx) hlt)
      have hcc := Finset.card_le_card hsub
      rw [hcard, Finset.card_range] at hcc
      omega
    calc ∑ i in S, f i
        = ∑ i in S.erase (S.max' hne), f i + f (S.max' hne) :=
          (Finset.sum_erase_add S f hM).symm
      _ ≤ ∑ i in Finset.range m, f i + f (S.max' hne) :=
          add_le_add_right (ih _ herase) _
      _ ≤ ∑ i in Finset.range m, f i + f m := add_le_add_left (hf m _ hmM) _
      _ = ∑ i in Finset.range (m + 1), f i := (Finset.sum_range_succ f m).symm

/-- The sum of an antitone function over any finite set of naturals is at most
its sum over the initial segment of the same size. -/
lemma sum_antitone_le_range (S : Finset ℕ) (f : ℕ → ℝ)
    (hf : ∀ a b : ℕ, a ≤ b → f b ≤ f a) :
    ∑ i in S, f i ≤ ∑ i in Finset.range S.card, f i :=
  sum_antitone_le_range_aux f hf S.card S rfl

/-- The discounted gain of the top-k ranked items never exceeds the ideal
gain when the holdout carries unit relevances. -/
lemma dcg_le_idcg (pred hold : List ℚ) (k : ℕ) (hlen : hold.length = pred.length)
    (hkn : k ≤ pred.length) (hval : ∀ x ∈ hold, 0 ≤ x ∧ x ≤ 1) :
    dcgOf pred hold k ≤ idcgOf hold k := by
  have htklen : (topkIdx pred k).length = k := topkIdx_length pred k hkn
  set tk := topkIdx pred k with htk
  set qv : ℕ → ℚ := fun r => hold.getD (tk.getD r 0) 0 with hqv
  set S : Finset ℕ := (Finset.range k).filter (fun r => qv r ≠ 0) with hS
  rw [dcgOf_eq_finsum, idcgOf_eq_finsum]
  have hterm : ∀ r ∈ Finset.range k,
      ((qv r : ℚ) : ℝ) * tpDiscount r ≤ (if r ∈ S then tpDiscount r else 0) := by
    intro r hr
    by_cases hmem : r ∈ S
    · rw [if_pos hmem]
      have hrk : r < k := Finset.mem_range.mp hr
      have hvalid : tk.getD r 0 ∈ tk := getDN_mem_of_lt tk r (by rw [htklen]; exact hrk)
      have hlt : tk.getD r 0 < hold.length := by
        rw [hlen]
        exact mem_topkIdx_lt pred k hvalid
      have hq1 : qv r ≤ 1 := (hval _ (getD_mem_of_lt hold _ hlt)).2
      have hcast : ((qv r : ℚ) : ℝ) ≤ 1 := by exact_mod_cast hq1
      calc ((qv r : ℚ) : ℝ) * tpDiscount r
          ≤ 1 * tpDiscount r :=
            mul_le_mul_of_nonneg_right hcast (le_of_lt (tpDiscount_pos r))
        _ = tpDiscount r := one_mul _
    · rw [if_neg hmem]
      have hq0 : qv r = 0 := by
        by_contra hq
        exact hmem (Finset.mem_filter.mpr ⟨hr, hq⟩)
      rw [hq0]
      simp
  have h1 : ∑ r in Finset.range k, ((qv r : ℚ) : ℝ) * tpDiscount r ≤
      ∑ r in Finset.range k, (if r ∈ S then tpDiscount r else 0) :=
    Finset.sum_le_sum hterm
  have h2 : ∑ r in Finset.range k, (if r ∈ S then tpDiscount r else 0) =
      ∑ r in S, tpDiscount r := by
    rw [Finset.sum_ite_mem, Finset.inter_eq_right.mpr (Finset.filter_subset _ _)]
  have hScard_le : S.card ≤ min (nnzOf hold) k := by
    refine le_min ?_ ?_
    · rw [nnzOf_eq_card]
      refine Finset.card_le_card_of_injOn (fun r => tk.getD r 0) ?_ ?_
      · intro r hrS
        have hrk : r < k := Finset.mem_range.mp (Finset.mem_filter.mp hrS).1
        have hvalid : tk.getD r 0 ∈ tk := getDN_mem_of_lt tk r (by rw [htklen]; exact hrk)
        have hlt : tk.getD r 0 < hold.length := by
          rw [hlen]
          exact mem_topkIdx_lt pred k hvalid
        exact (mem_nonzeroCols hold _).mpr ⟨hlt, (Finset.mem_filter.mp hrS).2⟩
      · intro r hrS s hsS heq
        have hrk : r < k := Finset.mem_range.mp (Finset.mem_filter.mp hrS).1
        have hsk : s < k := Finset.mem_range.mp (Finset.mem_filter.mp hsS).1
        exact getD_inj_of_nodup tk (topkIdx_nodup pred k)
          (by rw [htklen]; exact hrk) (by rw [htklen]; exact hsk) heq
    · calc S.card ≤ (Finset.range k).card := Finset.card_le_card (Finset.filter_subset _ _)
        _ = k := Finset.card_range k
  have h3 : ∑ r in S, tpDiscount r ≤ ∑ r in Finset.range S.card, tpDiscount r :=
    sum_antitone_le_range S tpDiscount (fun _ _ hab => tpDiscount_antitone hab)
  have h4 : ∑ r in Finset.range S.card, tpDiscount r ≤
      ∑ r in Finset.range (min (nnzOf hold) k), tpDiscount r :=
    Finset.sum_le_sum_of_subset_of_nonneg (Finset.range_subset.mpr hScard_le)
      (fun i _ _ => le_of_lt (tpDiscount_pos i))
  linarith

/-- C7: for a user row with at least one non-zero holdout column, unit-bounded
non-negative relevances (the spec's binary/unit-relevance assumption for IDCG)
and `1 ≤ k < n`, both the recall score and the NDCG score are defined and lie
in `[0, 1]`. -/
theorem recall_ndcg_bounded (pred hold : List ℚ) (k : ℕ)
    (hlen : hold.length = pred.length) (hk1 : 1 ≤ k) (hkn : k < pred.length)
    (hval : ∀ x ∈ hold, 0 ≤ x ∧ x ≤ 1) (hH : 0 < (nonzeroCols hold).card) :
    (∃ r, recallUser pred hold k = some r ∧ 0 ≤ r ∧ r ≤ 1) ∧
    (∃ v, ndcgUser pred hold k = some v ∧ 0 ≤ v ∧ v ≤ 1) := by
  have hnn : ∀ x ∈ hold, 0 ≤ x := fun x hx => (hval x hx).1
  constructor
  · have hden : recallDen hold k = min k (nonzeroCols hold).card := recallDen_eq hold k hnn
    have hden0 : ¬ recallDen hold k = 0 := by
      rw [hden]
      omega
    refine ⟨(hitCount pred hold k : ℚ) / (recallDen hold k : ℚ),
      by unfold recallUser; rw [if_neg hden0], ?_, ?_⟩
    · exact div_nonneg (Nat.cast_nonneg _) (Nat.cast_nonneg _)
    · rw [div_le_one (by exact_mod_cast Nat.pos_of_ne_zero hden0)]
      have hle : hitCount pred hold k ≤ recallDen hold k := by
        rw [hitCount_eq_card pred hold k hlen hnn, hden]
        refine le_min ?_ ?_
        · calc (topkSet pred k ∩ nonzeroCols hold).card ≤ (topkSet pred k).card :=
                Finset.card_le_card (Finset.inter_subset_left)
            _ = k := topkSet_card_eq pred k (le_of_lt hkn)
        · exact Finset.card_le_card (Finset.inter_subset_right)
      exact_mod_cast hle
  · have hmin : 0 < min (nnzOf hold) k := by
      rw [nnzOf_eq_card]
      omega
    have hidcg : 0 < idcgOf hold k := idcg_pos hold k hmin
    have hne : ¬ idcgOf hold k = 0 := ne_of_gt hidcg
    refine ⟨dcgOf pred hold k / idcgOf hold k,
      by unfold ndcgUser; rw [if_neg hne], ?_, ?_⟩
    · refine div_nonneg ?_ (le_of_lt hidcg)
      rw [dcgOf_eq_finsum]
      refine Finset.sum_nonneg (fun r hr => ?_)
      have hrk : r < k := Finset.mem_range.mp hr
      have htklen : (topkIdx pred k).length = k := topkIdx_length pred k (le_of_lt hkn)
      have hvalid : (topkIdx pred k).getD r 0 ∈ topkIdx pred k :=
        getDN_mem_of_lt _ r (by rw [htklen]; exact hrk)
      have hlt : (topkIdx pred k).getD r 0 < hold.length := by
        rw [hlen]
        exact mem_topkIdx_lt pred k hvalid
      have hq0 : (0:ℚ) ≤ hold.getD ((topkIdx pred k).getD r 0) 0 :=
        hnn _ (getD_mem_of_lt hold _ hlt)
      exact mul_nonneg (by exact_mod_cast hq0) (le_of_lt (tpDiscount_pos r))
    · rw [div_le_one hidcg]
      exact dcg_le_idcg pred hold k hlen (le_of_lt hkn) hval

/-- Witness for C7 at `X_pred = [2,1]`, `holdout = [0,1]`, `k = 1`. -/
theorem recall_ndcg_bounded_witness :
    (∀ x ∈ ([0, 1] : List ℚ), 0 ≤ x ∧ x ≤ 1) ∧ 0 < (nonzeroCols [0, 1]).card ∧
    ((∃ r, recallUser [2, 1] [0, 1] 1 = some r ∧ 0 ≤ r ∧ r ≤ 1) ∧
     (∃ v, ndcgUser [2, 1] [0, 1] 1 = some v ∧ 0 ≤ v ∧ v ≤ 1)) :=
  ⟨by decide, by decide,
    recall_ndcg_bounded [2, 1] [0, 1] 1 (by decide) (by decide) (by decide)
      (by decide) (by decide)⟩

/-! ### Splitter lemmas shared by the partition claims -/

lemma rngId_ok : RNG.Ok rngId := by
  constructor
  · intro st n
    exact List.Perm.refl _
  · intro st n size hsz
    refine ⟨List.nodup_range size, List.length_range size, fun x hx => ?_⟩
    exact lt_of_lt_of_le (List.mem_range.mp hx) hsz

lemma mem_uniqueFirstAux : ∀ (l seen : List ℕ) (x : ℕ),
    x ∈ uniqueFirstAux l seen ↔ x ∈ l ∧ x ∉ seen := by
  intro l
  induction l with
  | nil => simp [uniqueFirstAux]
  | cons y ys ih =>
    intro seen x
    by_cases hy : y ∈ seen
    · rw [uniqueFirstAux, if_pos hy, ih]
      constructor
      · rintro ⟨h1, h2⟩
        exact ⟨List.mem_cons_of_mem _ h1, h2⟩
      · rintro ⟨h1, h2⟩
        rcases List.mem_cons.mp h1 with rfl | h1'
        · exact absurd hy h2
        · exact ⟨h1', h2⟩
    · rw [uniqueFirstAux, if_neg hy, List.mem_cons, ih]
      constructor
      · rintro (rfl | ⟨h1, h2⟩)
        · exact ⟨List.mem_cons_self _ _, hy⟩
        · exact ⟨List.mem_cons_of_mem _ h1,
            fun hc => h2 (List.mem_cons_of_mem _ hc)⟩
      · rintro ⟨h1, h2⟩
        by_cases hxy : x = y
        · exact Or.inl hxy
        · rcases List.mem_cons.mp h1 with rfl | h1'
          · exact Or.inl rfl
          · refine Or.inr ⟨h1', fun hc => ?_⟩
            rcases List.mem_cons.mp hc with h | h
            · exact hxy h
            · exact h2 h

lemma nodup_uniqueFirstAux : ∀ (l seen : List ℕ), (uniqueFirstAux l seen).Nodup := by
  intro l
  induction l with
  | nil => intro seen; simp [uniqueFirstAux]
  | cons y ys ih =>
    intro seen
    by_cases hy : y ∈ seen
    · rw [uniqueFirstAux, if_pos hy]
      exact ih seen
    · rw [uniqueFirstAux, if_neg hy]
      refine List.nodup_cons.mpr ⟨fun hc => ?_, ih _⟩
      exact ((mem_uniqueFirstAux ys (y :: seen) y).mp hc).2 (List.mem_cons_self _ _)

lemma mem_uniqueFirst (l : List ℕ) (x : ℕ) : x ∈ uniqueFirst l ↔ x ∈ l := by
  simp [uniqueFirst, mem_uniqueFirstAux]

lemma nodup_uniqueFirst (l : List ℕ) : (uniqueFirst l).Nodup :=
  nodup_uniqueFirstAux l []

lemma sortedUsers_perm (tp : List Triplet) :
    (sortedUsers tp).Perm (uniqueFirst (tp.map (fun t => t.user))) :=
  List.perm_insertionSort _ _

lemma sortedUsers_nodup (tp : List Triplet) : (sortedUsers tp).Nodup :=
  (sortedUsers_perm tp).nodup_iff.mpr (nodup_uniqueFirst _)

lemma mem_sortedUsers (tp : List Triplet) (u : ℕ) :
    u ∈ sortedUsers tp ↔ ∃ t ∈ tp, t.user = u := by
  rw [(sortedUsers_perm tp).mem_iff, mem_uniqueFirst]
  simp [List.mem_map]

lemma userRows_user (tp : List Triplet) (u : ℕ) :
    ∀ t ∈ userRows tp u, t.user = u := by
  intro t ht
  simpa using (List.mem_filter.mp ht).2

lemma userRows_eq_nil_iff (tp : List Triplet) (u : ℕ) :
    userRows tp u = [] ↔ u ∉ sortedUsers tp := by
  rw [userRows, List.filter_eq_nil_iff, mem_sortedUsers]
  push_neg
  constructor
  · intro h t ht
    simpa using h t ht
  · intro h t ht
    simpa using h t ht

lemma groupsOf_ne_nil (tp : List Triplet) (hne : tp ≠ []) : groupsOf tp ≠ [] := by
  cases tp with
  | nil => exact absurd rfl hne
  | cons t ts =>
    have hmem : t.user ∈ sortedUsers (t :: ts) :=
      (mem_sortedUsers _ _).mpr ⟨t, List.mem_cons_self t ts, rfl⟩
    unfold groupsOf
    intro hc
    rw [List.map_eq_nil_iff] at hc
    rw [hc] at hmem
    exact absurd hmem (List.not_mem_nil _)

lemma pickIdx_nil (sel : List ℕ) : pickIdx [] sel = [] := rfl

lemma dropIdx_nil (sel : List ℕ) : dropIdx [] sel = [] := rfl

lemma pickIdx_subset (l : List Triplet) (sel : List ℕ) :
    ∀ t ∈ pickIdx l sel, t ∈ l := by
  intro t ht
  obtain ⟨q, hq, rfl⟩ := List.mem_map.mp ht
  exact (List.enum_map_snd l) ▸ List.mem_map_of_mem Prod.snd (List.mem_of_mem_filter hq)

lemma dropIdx_subset (l : List Triplet) (sel : List ℕ) :
    ∀ t ∈ dropIdx l sel, t ∈ l := by
  intro t ht
  obtain ⟨q, hq, rfl⟩ := List.mem_map.mp ht
  exact (List.enum_map_snd l) ▸ List.mem_map_of_mem Prod.snd (List.mem_of_mem_filter hq)

lemma dropIdx_eq_filter_not (l : List Triplet) (sel : List ℕ) :
    dropIdx l sel = (l.enum.filter (fun q => !decide (q.1 ∈ sel))).map Prod.snd := by
  unfold dropIdx
  congr 1
  refine List.filter_congr (fun q _ => ?_)
  simp [decide_not]

lemma pick_drop_perm (l : List Triplet) (sel : List ℕ) :
    (pickIdx l sel ++ dropIdx l sel).Perm l := by
  rw [dropIdx_eq_filter_not]
  unfold pickIdx
  rw [← List.map_append]
  have h := List.filter_append_perm (fun q => decide (q.1 ∈ sel)) l.enum
  have h2 := h.map Prod.snd
  rwa [List.enum_map_snd] at h2

lemma pickIdx_length (l : List Triplet) (sel : List ℕ) (hnd : sel.Nodup)
    (hlt : ∀ x ∈ sel, x < l.length) :
    (pickIdx l sel).length = sel.length := by
  unfold pickIdx
  rw [List.length_map, ← List.countP_eq_length_filter]
  have h1 : l.enum.countP (fun q => decide (q.1 ∈ sel)) =
      (l.enum.map Prod.fst).countP (fun i => decide (i ∈ sel)) := by
    rw [List.countP_map]
    rfl
  rw [h1, List.enum_map_fst, List.countP_eq_length_filter]
  have hnodup : ((List.range l.length).filter (fun i => decide (i ∈ sel))).Nodup :=
    List.Nodup.filter _ (List.nodup_range _)
  rw [← List.toFinset_card_of_nodup hnodup, ← List.toFinset_card_of_nodup hnd]
  congr 1
  ext i
  simp only [List.mem_toFinset, List.mem_filter, List.mem_range, decide_eq_true_eq]
  exact ⟨fun h => h.2, fun h => ⟨hlt i h, h⟩⟩

lemma dropIdx_length (l : List Triplet) (sel : List ℕ) (hnd : sel.Nodup)
    (hlt : ∀ x ∈ sel, x < l.length) :
    (dropIdx l sel).length = l.length - sel.length := by
  have hp := (pick_drop_perm l sel).length_eq
  rw [List.length_append, pickIdx_length l sel hnd hlt] at hp
  omega

lemma mem_pickIdx (l : List Triplet) (sel : List ℕ) (t : Triplet) :
    t ∈ pickIdx l sel ↔ ∃ i, i ∈ sel ∧ l[i]? = some t := by
  unfold pickIdx
  simp only [List.mem_map, List.mem_filter, decide_eq_true_eq]
  constructor
  · rintro ⟨⟨i, x⟩, ⟨hmem, hsel⟩, rfl⟩
    exact ⟨i, hsel, List.mk_mem_enum_iff_getElem?.mp hmem⟩
  · rintro ⟨i, hsel, hget⟩
    exact ⟨(i, t), ⟨List.mk_mem_enum_iff_getElem?.mpr hget, hsel⟩, rfl⟩

lemma mem_dropIdx (l : List Triplet) (sel : List ℕ) (t : Triplet) :
    t ∈ dropIdx l sel ↔ ∃ i, i ∉ sel ∧ l[i]? = some t := by
  unfold dropIdx
  simp only [List.mem_map, List.mem_filter, decide_eq_true_eq]
  constructor
  · rintro ⟨⟨i, x⟩, ⟨hmem, hsel⟩, rfl⟩
    exact ⟨i, hsel, List.mk_mem_enum_iff_getElem?.mp hmem⟩
  · rintro ⟨i, hsel, hget⟩
    exact ⟨(i, t), ⟨List.mk_mem_enum_iff_getElem?.mpr hget, hsel⟩, rfl⟩

lemma filter_flatten_keys (tp : List Triplet) (F : ℕ × List Triplet → List Triplet)
    (hF : ∀ v, ∀ t ∈ F (v, userRows tp v), t.user = v) :
    ∀ (ks : List ℕ), ks.Nodup → ∀ (u : ℕ),
    ((ks.map (fun v => F (v, userRows tp v))).flatten).filter
      (fun t => decide (t.user = u)) =
      if u ∈ ks then F (u, userRows tp u) else [] := by
  intro ks
  induction ks with
  | nil => simp
  | cons v ks ih =>
    intro hnd u
    rw [List.map_cons, List.flatten_cons, List.filter_append]
    have hnd2 : ks.Nodup := (List.nodup_cons.mp hnd).2
    have hvns : v ∉ ks := (List.nodup_cons.mp hnd).1
    by_cases huv : u = v
    · subst huv
      have h1 : (F (u, userRows tp u)).filter (fun t => decide (t.user = u)) =
          F (u, userRows tp u) :=
        List.filter_eq_self.mpr (fun t ht => by simp [hF u t ht])
      have h2 : ((ks.map (fun v => F (v, userRows tp v))).flatten).filter
          (fun t => decide (t.user = u)) = [] := by
        rw [ih hnd2 u, if_neg hvns]
      rw [h1, h2, List.append_nil, if_pos (List.mem_cons_self _ _)]
    · have h1 : (F (v, userRows tp v)).filter (fun t => decide (t.user = u)) = [] := by
        rw [List.filter_eq_nil_iff]
        intro t ht
        have hv : t.user = v := hF v t ht
        simp only [hv, decide_eq_true_eq]
        exact fun h => huv h.symm
      rw [h1, List.nil_append, ih hnd2 u]
      by_cases hu : u ∈ ks
      · rw [if_pos hu, if_pos (List.mem_cons_of_mem _ hu)]
      · rw [if_neg hu, if_neg (by simp [List.mem_cons, huv, hu])]

lemma holdParts_filter_user (g : RNG) (prop : ℚ) (seed : ℕ) (tp : List Triplet) (u : ℕ) :
    (holdParts g prop seed tp).filter (fun t => decide (t.user = u)) =
      pickIdx (userRows tp u) (userSel g seed prop (userRows tp u).length) := by
  unfold holdParts groupsOf
  rw [List.map_map]
  have h := filter_flatten_keys tp
    (fun pr => pickIdx pr.2 (userSel g seed prop pr.2.length))
    (fun v t ht => userRows_user tp v t (pickIdx_subset _ _ t ht))
    (sortedUsers tp) (sortedUsers_nodup tp) u
  rw [show ((fun pr : ℕ × List Triplet => pickIdx pr.2 (userSel g seed prop pr.2.length)) ∘
    (fun u => (u, userRows tp u))) =
    (fun v => pickIdx (userRows tp v) (userSel g seed prop (userRows tp v).length)) from rfl]
  rw [h]
  by_cases hu : u ∈ sortedUsers tp
  · rw [if_pos hu]
  · rw [if_neg hu, (userRows_eq_nil_iff tp u).mpr hu, pickIdx_nil]

lemma trainParts_filter_user (g : RNG) (prop : ℚ) (seed : ℕ) (tp : List Triplet) (u : ℕ) :
    (trainParts g prop seed tp).filter (fun t => decide (t.user = u)) =
      dropIdx (userRows tp u) (userSel g seed prop (userRows tp u).length) := by
  unfold trainParts groupsOf
  rw [List.map_map]
  have h := filter_flatten_keys tp
    (fun pr => dropIdx pr.2 (userSel g seed prop pr.2.length))
    (fun v t ht => userRows_user tp v t (dropIdx_subset _ _ t ht))
    (sortedUsers tp) (sortedUsers_nodup tp) u
  rw [show ((fun pr : ℕ × List Triplet => dropIdx pr.2 (userSel g seed prop pr.2.length)) ∘
    (fun u => (u, userRows tp u))) =
    (fun v => dropIdx (userRows tp v) (userSel g seed prop (userRows tp v).length)) from rfl]
  rw [h]
  by_cases hu : u ∈ sortedUsers tp
  · rw [if_pos hu]
  · rw [if_neg hu, (userRows_eq_nil_iff tp u).mpr hu, dropIdx_nil]

lemma holdoutSize_le (prop : ℚ) (n : ℕ) (h0 : 0 ≤ prop) (h1 : prop < 1) :
    holdoutSizeOf prop n ≤ n := by
  unfold holdoutSizeOf
  have hle : prop * (n : ℚ) ≤ (n : ℚ) :=
    mul_le_of_le_one_left (by positivity) (le_of_lt h1)
  have hfloor : ⌊prop * (n : ℚ)⌋ ≤ (n : ℤ) := by
    calc ⌊prop * (n : ℚ)⌋ ≤ ⌊(n : ℚ)⌋ := Int.floor_le_floor hle
      _ = (n : ℤ) := Int.floor_natCast n
  omega

lemma holdoutSize_lt (prop : ℚ) (n : ℕ) (h0 : 0 ≤ prop) (h1 : prop < 1) (hn : 0 < n) :
    holdoutSizeOf prop n < n := by
  unfold holdoutSizeOf
  have hn' : (0 : ℚ) < (n : ℚ) := by exact_mod_cast hn
  have hlt : prop * (n : ℚ) < (n : ℚ) := by
    calc prop * (n : ℚ) < 1 * (n : ℚ) := mul_lt_mul_of_pos_right h1 hn'
      _ = (n : ℚ) := one_mul _
  have hfl : ⌊prop * (n : ℚ)⌋ < (n : ℤ) := by
    rw [Int.floor_lt]
    exact_mod_cast hlt
  omega

lemma userSel_spec (g : RNG) (hg : RNG.Ok g) (seed : ℕ) (prop : ℚ) (n : ℕ)
    (h0 : 0 ≤ prop) (h1 : prop < 1) :
    (userSel g seed prop n).Nodup ∧
    (userSel g seed prop n).length = holdoutSizeOf prop n ∧
    ∀ x ∈ userSel g seed prop n, x < n :=
  hg.2 _ _ _ (holdoutSize_le prop n h0 h1)

lemma splitTrainTest_ok (g : RNG) (prop : ℚ) (seed : ℕ) (tp : List Triplet) (st : ℕ)
    (hne : tp ≠ []) :
    splitTrainTest g prop seed tp st =
      (Except.ok (trainParts g prop seed tp, holdParts g prop seed tp),
        stateAfterLoop g prop seed tp st) := by
  unfold splitTrainTest
  rw [if_neg ?h]
  case h =>
    rw [List.isEmpty_iff]
    exact groupsOf_ne_nil tp hne

/-! ### C4: the per-user holdout draw -/

/-- C4: on a non-empty partition table the holdout split succeeds, and for
every user the holdout rows are exactly the rows of that user's group at the
positions drawn by the freshly re-seeded generator (`userSel` applies
`seedState seed` immediately before the draw, so the draw depends only on the
configured seed and the group size); the drawn set has exactly
`int(test_holdout_prop * n_items) = ⌊prop·n⌋` rows, the visible-training part
keeps the remaining `n - ⌊prop·n⌋` rows, and together they are a permutation
of the user's group. -/
theorem per_user_holdout_split (g : RNG) (prop : ℚ) (seed : ℕ) (tp : List Triplet)
    (st : ℕ) (hg : RNG.Ok g) (h0 : 0 ≤ prop) (h1 : prop < 1) (hne : tp ≠ []) (u : ℕ) :
    splitTrainTest g prop seed tp st =
      (Except.ok (trainParts g prop seed tp, holdParts g prop seed tp),
        stateAfterLoop g prop seed tp st) ∧
    (holdParts g prop seed tp).filter (fun t => decide (t.user = u)) =
      pickIdx (userRows tp u) (userSel g seed prop (userRows tp u).length) ∧
    (trainParts g prop seed tp).filter (fun t => decide (t.user = u)) =
      dropIdx (userRows tp u) (userSel g seed prop (userRows tp u).length) ∧
    ((holdParts g prop seed tp).filter (fun t => decide (t.user = u))).length =
      holdoutSizeOf prop (userRows tp u).length ∧
    ((trainParts g prop seed tp).filter (fun t => decide (t.user = u))).length =
      (userRows tp u).length - holdoutSizeOf prop (userRows tp u).length ∧
    (((trainParts g prop seed tp).filter (fun t => decide (t.user = u))) ++
      ((holdParts g prop seed tp).filter (fun t => decide (t.user = u)))).Perm
      (userRows tp u) := by
  obtain ⟨hnd, hlen, hlt⟩ := userSel_spec g hg seed prop (userRows tp u).length h0 h1
  refine ⟨splitTrainTest_ok g prop seed tp st hne,
    holdParts_filter_user g prop seed tp u,
    trainParts_filter_user g prop seed tp u, ?_, ?_, ?_⟩
  · rw [holdParts_filter_user, pickIdx_length _ _ hnd hlt, hlen]
  · rw [trainParts_filter_user, dropIdx_length _ _ hnd hlt, hlen]
  · rw [holdParts_filter_user, trainParts_filter_user]
    exact (List.perm_append_comm).trans (pick_drop_perm _ _)

/-- Witness for C4 at a concrete two-user table with `prop = 0`. -/
theorem per_user_holdout_split_witness :
    RNG.Ok rngId ∧ (0:ℚ) ≤ 0 ∧ (0:ℚ) < 1 ∧
      ([⟨0, 0, 1⟩, ⟨1, 0, 1⟩] : List Triplet) ≠ [] ∧
    (splitTrainTest rngId 0 7 [⟨0, 0, 1⟩, ⟨1, 0, 1⟩] 3 =
      (Except.ok (trainParts rngId 0 7 [⟨0, 0, 1⟩, ⟨1, 0, 1⟩],
        holdParts rngId 0 7 [⟨0, 0, 1⟩, ⟨1, 0, 1⟩]),
        stateAfterLoop rngId 0 7 [⟨0, 0, 1⟩, ⟨1, 0, 1⟩] 3) ∧
    (holdParts rngId 0 7 [⟨0, 0, 1⟩, ⟨1, 0, 1⟩]).filter (fun t => decide (t.user = 0)) =
      pickIdx (userRows [⟨0, 0, 1⟩, ⟨1, 0, 1⟩] 0)
        (userSel rngId 7 0 (userRows [⟨0, 0, 1⟩, ⟨1, 0, 1⟩] 0).length) ∧
    (trainParts rngId 0 7 [⟨0, 0, 1⟩, ⟨1, 0, 1⟩]).filter (fun t => decide (t.user = 0)) =
      dropIdx (userRows [⟨0, 0, 1⟩, ⟨1, 0, 1⟩] 0)
        (userSel rngId 7 0 (userRows [⟨0, 0, 1⟩, ⟨1, 0, 1⟩] 0).length) ∧
    ((holdParts rngId 0 7 [⟨0, 0, 1⟩, ⟨1, 0, 1⟩]).filter
      (fun t => decide (t.user = 0))).length =
      holdoutSizeOf 0 (userRows [⟨0, 0, 1⟩, ⟨1, 0, 1⟩] 0).length ∧
    ((trainParts rngId 0 7 [⟨0, 0, 1⟩, ⟨1, 0, 1⟩]).filter
      (fun t => decide (t.user = 0))).length =
      (userRows [⟨0, 0, 1⟩, ⟨1, 0, 1⟩] 0).length -
        holdoutSizeOf 0 (userRows [⟨0, 0, 1⟩, ⟨1, 0, 1⟩] 0).length ∧
    (((trainParts rngId 0 7 [⟨0, 0, 1⟩, ⟨1, 0, 1⟩]).filter
      (fun t => decide (t.user = 0))) ++
      ((holdParts rngId 0 7 [⟨0, 0, 1⟩, ⟨1, 0, 1⟩]).filter
        (fun t => decide (t.user = 0)))).Perm
      (userRows [⟨0, 0, 1⟩, ⟨1, 0, 1⟩] 0)) :=
  ⟨rngId_ok, by decide, by decide, by decide,
    per_user_holdout_split rngId 0 7 [⟨0, 0, 1⟩, ⟨1, 0, 1⟩] 3 rngId_ok
      (by decide) (by decide) (by decide) 0⟩

/-! ### C1: shape and row-disjointness of training / holdout matrices -/

lemma exists_triplet_of_sum_ne (df : List Triplet) (u i : ℕ)
    (h : ((df.filter (fun t => decide (t.user = u ∧ t.item = i))).map
      (fun t => t.value)).sum ≠ 0) :
    ∃ t ∈ df, t.user = u ∧ t.item = i := by
  by_contra hc
  push_neg at hc
  have hnil : df.filter (fun t => decide (t.user = u ∧ t.item = i)) = [] := by
    rw [List.filter_eq_nil_iff]
    intro t ht
    simp only [decide_eq_true_eq, not_and]
    exact hc t ht
  rw [hnil] at h
  simp at h

lemma acc_le_foldl_max : ∀ (l : List ℕ) (acc : ℕ), acc ≤ l.foldl max acc := by
  intro l
  induction l with
  | nil => intro acc; exact le_refl acc
  | cons y ys ih =>
    intro acc
    exact le_trans (le_max_left acc y) (ih (max acc y))

lemma le_foldl_max : ∀ (l : List ℕ) (acc x : ℕ), x ∈ l → x ≤ l.foldl max acc := by
  intro l
  induction l with
  | nil => intro acc x hx; exact absurd hx (List.not_mem_nil x)
  | cons y ys ih =>
    intro acc x hx
    rcases List.mem_cons.mp hx with rfl | hx'
    · exact le_trans (le_max_right acc x) (acc_le_foldl_max ys (max acc x))
    · exact ih (max acc y) x hx'

lemma foldl_max_cases : ∀ (l : List ℕ) (acc : ℕ),
    l.foldl max acc = acc ∨ ∃ x ∈ l, l.foldl max acc = x := by
  intro l
  induction l with
  | nil => intro acc; exact Or.inl rfl
  | cons y ys ih =>
    intro acc
    rcases ih (max acc y) with hc | ⟨x, hx, hc⟩
    · rcases max_choice acc y with hm | hm
      · exact Or.inl (by rw [List.foldl_cons, hc, hm])
      · exact Or.inr ⟨y, List.mem_cons_self y ys, by rw [List.foldl_cons, hc, hm]⟩
    · exact Or.inr ⟨x, List.mem_cons_of_mem y hx, by rw [List.foldl_cons, hc]⟩

lemma maxUser_le (dfa dfb : List Triplet)
    (h : ∀ t ∈ dfa, ∃ s ∈ dfb, s.user = t.user) : maxUser dfa ≤ maxUser dfb := by
  unfold maxUser
  rcases foldl_max_cases (dfa.map (fun t => t.user)) 0 with hc | ⟨x, hx, hc⟩
  · rw [hc]
    exact Nat.zero_le _
  · rw [hc]
    obtain ⟨t, ht, rfl⟩ := List.mem_map.mp hx
    obtain ⟨s, hs, hus⟩ := h t ht
    have hmem : s.user ∈ dfb.map (fun t => t.user) := List.mem_map_of_mem _ hs
    rw [← hus]
    exact le_foldl_max _ 0 _ hmem

lemma getElem?_inj_of_nodup_map (l : List Triplet)
    (hnd : (l.map (fun t => t.item)).Nodup) {p q : ℕ} {a b : Triplet}
    (hp : l[p]? = some a) (hq : l[q]? = some b) (hab : a.item = b.item) : p = q := by
  have hp' : (l.map (fun t => t.item))[p]? = some a.item := by
    rw [List.getElem?_map, hp]
    rfl
  have hq' : (l.map (fun t => t.item))[q]? = some b.item := by
    rw [List.getElem?_map, hq]
    rfl
  obtain ⟨hplen, hpe⟩ := List.getElem?_eq_some_iff.mp hp'
  obtain ⟨hqlen, hqe⟩ := List.getElem?_eq_some_iff.mp hq'
  have hinj := List.nodup_iff_injective_getElem.mp hnd
  have heq := @hinj ⟨p, hplen⟩ ⟨q, hqlen⟩
    (show (l.map (fun t => t.item))[p] = (l.map (fun t => t.item))[q] by
      rw [hpe, hqe, hab])
  simpa using congrArg Fin.val heq

/-- C1 amended: for a partition split by `_split_train_test` whose per-user
interactions carry no duplicate item, the two matrices built by `df_to_matrix`
with the shared item count have the same column count, the holdout matrix has
at most as many rows as the training matrix, and no coordinate is non-zero in
both. -/
theorem split_matrices_cols_rows_disjoint (g : RNG) (prop : ℚ) (seed : ℕ)
    (tp : List Triplet) (st : ℕ) (nItems : ℕ) (tr te : List Triplet) (stOut : ℕ)
    (Mt Mh : Mat) (hg : RNG.Ok g) (h0 : 0 ≤ prop) (h1 : prop < 1)
    (hdist : ∀ u, ((userRows tp u).map (fun t => t.item)).Nodup)
    (hok : splitTrainTest g prop seed tp st = (Except.ok (tr, te), stOut))
    (hMt : dfToMatrix tr nItems = some Mt) (hMh : dfToMatrix te nItems = some Mh) :
    Mt.cols = nItems ∧ Mh.cols = nItems ∧ Mh.rows ≤ Mt.rows ∧
    ∀ u i, ¬(Mt.entry u i ≠ 0 ∧ Mh.entry u i ≠ 0) := by
  have hne : tp ≠ [] := by
    intro hc
    subst hc
    exact absurd (congrArg Prod.fst hok) (by simp [splitTrainTest, groupsOf, sortedUsers,
      uniqueFirst, uniqueFirstAux])
  have hok2 := splitTrainTest_ok g prop seed tp st hne
  have hpair := Except.ok.inj (congrArg Prod.fst (hok2.symm.trans hok))
  have htr : tr = trainParts g prop seed tp := (congrArg Prod.fst hpair).symm
  have hte : te = holdParts g prop seed tp := (congrArg Prod.snd hpair).symm
  have hMt' := dfToMatrix_eq tr nItems Mt hMt
  have hMh' := dfToMatrix_eq te nItems Mh hMh
  -- every holdout user still appears in the visible-training rows
  have husers : ∀ t ∈ te, ∃ s ∈ tr, s.user = t.user := by
    intro t ht
    have htf : t ∈ te.filter (fun s => decide (s.user = t.user)) :=
      List.mem_filter.mpr ⟨ht, by simp⟩
    rw [hte, holdParts_filter_user] at htf
    have htu : t ∈ userRows tp t.user := pickIdx_subset _ _ t htf
    have hlen_pos : 0 < (userRows tp t.user).length :=
      List.length_pos.mpr (List.ne_nil_of_mem htu)
    obtain ⟨hnd, hlen, hlt⟩ :=
      userSel_spec g hg seed prop (userRows tp t.user).length h0 h1
    have hdlen : ((trainParts g prop seed tp).filter
        (fun s => decide (s.user = t.user))).length =
        (userRows tp t.user).length - holdoutSizeOf prop (userRows tp t.user).length := by
      rw [trainParts_filter_user, dropIdx_length _ _ hnd hlt, hlen]
    have hsize := holdoutSize_lt prop (userRows tp t.user).length h0 h1 hlen_pos
    have hpos : 0 < ((trainParts g prop seed tp).filter
        (fun s => decide (s.user = t.user))).length := by
      rw [hdlen]
      omega
    obtain ⟨s, hs⟩ := List.exists_mem_of_length_pos hpos
    refine ⟨s, ?_, ?_⟩
    · rw [htr]
      exact List.mem_of_mem_filter hs
    · simpa using (List.mem_filter.mp hs).2
  refine ⟨by rw [hMt'], by rw [hMh'], ?_, ?_⟩
  · rw [hMt', hMh']
    simp only
    have := maxUser_le te tr husers
    omega
  · intro u i hcon
    obtain ⟨hTne, hHne⟩ := hcon
    rw [dfToMatrix_entry_eq_sum tr nItems Mt hMt] at hTne
    rw [dfToMatrix_entry_eq_sum te nItems Mh hMh] at hHne
    obtain ⟨t, htmem, htu, hti⟩ := exists_triplet_of_sum_ne tr u i hTne
    obtain ⟨s, hsmem, hsu, hsi⟩ := exists_triplet_of_sum_ne te u i hHne
    have htf : t ∈ tr.filter (fun x => decide (x.user = u)) :=
      List.mem_filter.mpr ⟨htmem, by simp [htu]⟩
    have hsf : s ∈ te.filter (fun x => decide (x.user = u)) :=
      List.mem_filter.mpr ⟨hsmem, by simp [hsu]⟩
    rw [htr, trainParts_filter_user] at htf
    rw [hte, holdParts_filter_user] at hsf
    obtain ⟨q, hqns, hqget⟩ := (mem_dropIdx _ _ t).mp htf
    obtain ⟨p, hps, hpget⟩ := (mem_pickIdx _ _ s).mp hsf
    have hpq : p = q :=
      getElem?_inj_of_nodup_map (userRows tp u) (hdist u) hpget hqget
        (by rw [hsi, hti])
    rw [hpq] at hps
    exact hqns hps

/-- C1 counterexample: a validation-style partition where the maximal-position
user keeps an empty holdout (one interaction, `int(0.5·1) = 0`) and another
user carries a duplicated (user, item) pair: the two matrices differ in shape
(2 rows vs 1 row) and share the non-zero coordinate (0, 0). -/
theorem split_matrices_shape_overlap_cex :
    (splitTrainTest rngId (mkRat 1 2) 7
        [⟨0, 0, 1⟩, ⟨0, 1, 1⟩, ⟨0, 0, 1⟩, ⟨0, 1, 1⟩, ⟨1, 0, 1⟩] 0).1 =
      Except.ok ([⟨0, 0, 1⟩, ⟨0, 1, 1⟩, ⟨1, 0, 1⟩], [⟨0, 0, 1⟩, ⟨0, 1, 1⟩]) ∧
    (dfToMatrix [⟨0, 0, 1⟩, ⟨0, 1, 1⟩, ⟨1, 0, 1⟩] 2).map Mat.rows = some 2 ∧
    (dfToMatrix [⟨0, 0, 1⟩, ⟨0, 1, 1⟩] 2).map Mat.rows = some 1 ∧
    ((dfToMatrix [⟨0, 0, 1⟩, ⟨0, 1, 1⟩, ⟨1, 0, 1⟩] 2).map
      (fun M => M.entry 0 0)) = some 1 ∧
    ((dfToMatrix [⟨0, 0, 1⟩, ⟨0, 1, 1⟩] 2).map (fun M => M.entry 0 0)) = some 1 := by
  refine ⟨?_, by decide, by decide, ?_, ?_⟩
  · have h4 : holdoutSizeOf (mkRat 1 2) 4 = 2 := by
      have hfl : ⌊mkRat 1 2 * ((4:ℕ) : ℚ)⌋ = 2 := by
        norm_num [Rat.mkRat_eq_div]
      rw [holdoutSizeOf, hfl]
      decide
    have h1 : holdoutSizeOf (mkRat 1 2) 1 = 0 := by
      norm_num [holdoutSizeOf, Rat.mkRat_eq_div]
    simp [splitTrainTest, trainParts, holdParts, stateAfterLoop, groupsOf, sortedUsers,
      userRows, userSel, rngId, pickIdx, dropIdx, uniqueFirst, uniqueFirstAux,
      List.insertionSort, List.orderedInsert, h4, h1]
    decide
  · show some (cooEntries [⟨0, 0, 1⟩, ⟨0, 1, 1⟩, ⟨1, 0, 1⟩] 0 0) = some 1
    simp [cooEntries, addEntry]
  · show some (cooEntries [⟨0, 0, 1⟩, ⟨0, 1, 1⟩] 0 0) = some 1
    simp [cooEntries, addEntry]

lemma holdoutSizeW : holdoutSizeOf (mkRat 1 2) 2 = 1 := by
  norm_num [holdoutSizeOf, Rat.mkRat_eq_div]

lemma itemsNodupW :
    ∀ u, ((userRows [⟨0, 0, 1⟩, ⟨0, 1, 1⟩] u).map (fun t => t.item)).Nodup := by
  intro u
  by_cases h0 : u = 0
  · subst h0
    decide
  · have hnil : userRows [⟨0, 0, 1⟩, ⟨0, 1, 1⟩] u = [] := by
      rw [userRows, List.filter_eq_nil_iff]
      intro t ht
      rcases List.mem_cons.mp ht with rfl | ht'
      · simpa using fun hc => h0 hc.symm
      · rcases List.mem_cons.mp ht' with rfl | ht''
        · simpa using fun hc => h0 hc.symm
        · exact absurd ht'' (List.not_mem_nil t)
    rw [hnil]
    simp

lemma trainPartsW :
    trainParts rngId (mkRat 1 2) 7 [⟨0, 0, 1⟩, ⟨0, 1, 1⟩] = [⟨0, 1, 1⟩] := by
  simp [trainParts, groupsOf, sortedUsers, userRows, uniqueFirst, uniqueFirstAux,
    userSel, rngId, dropIdx, List.insertionSort, List.orderedInsert, holdoutSizeW]
  decide

lemma holdPartsW :
    holdParts rngId (mkRat 1 2) 7 [⟨0, 0, 1⟩, ⟨0, 1, 1⟩] = [⟨0, 0, 1⟩] := by
  simp [holdParts, groupsOf, sortedUsers, userRows, uniqueFirst, uniqueFirstAux,
    userSel, rngId, pickIdx, List.insertionSort, List.orderedInsert, holdoutSizeW]
  decide

/-- Witness for the amended C1 at a one-user table with distinct items and
holdout proportion 1/2. -/
theorem split_matrices_cols_rows_disjoint_witness :
    RNG.Ok rngId ∧ (0:ℚ) ≤ mkRat 1 2 ∧ mkRat 1 2 < 1 ∧
    (∀ u, ((userRows [⟨0, 0, 1⟩, ⟨0, 1, 1⟩] u).map (fun t => t.item)).Nodup) ∧
    splitTrainTest rngId (mkRat 1 2) 7 [⟨0, 0, 1⟩, ⟨0, 1, 1⟩] 0 =
      (Except.ok (trainParts rngId (mkRat 1 2) 7 [⟨0, 0, 1⟩, ⟨0, 1, 1⟩],
        holdParts rngId (mkRat 1 2) 7 [⟨0, 0, 1⟩, ⟨0, 1, 1⟩]),
        stateAfterLoop rngId (mkRat 1 2) 7 [⟨0, 0, 1⟩, ⟨0, 1, 1⟩] 0) ∧
    dfToMatrix (trainParts rngId (mkRat 1 2) 7 [⟨0, 0, 1⟩, ⟨0, 1, 1⟩]) 2 =
      some ⟨1, 2, cooEntries [⟨0, 1, 1⟩]⟩ ∧
    dfToMatrix (holdParts rngId (mkRat 1 2) 7 [⟨0, 0, 1⟩, ⟨0, 1, 1⟩]) 2 =
      some ⟨1, 2, cooEntries [⟨0, 0, 1⟩]⟩ ∧
    (∀ u i, ¬((Mat.mk 1 2 (cooEntries [⟨0, 1, 1⟩])).entry u i ≠ 0 ∧
        (Mat.mk 1 2 (cooEntries [⟨0, 0, 1⟩])).entry u i ≠ 0)) := by
  have hmt : dfToMatrix (trainParts rngId (mkRat 1 2) 7 [⟨0, 0, 1⟩, ⟨0, 1, 1⟩]) 2 =
      some ⟨1, 2, cooEntries [⟨0, 1, 1⟩]⟩ := by
    simp [trainPartsW, dfToMatrix, maxUser]
  have hmh : dfToMatrix (holdParts rngId (mkRat 1 2) 7 [⟨0, 0, 1⟩, ⟨0, 1, 1⟩]) 2 =
      some ⟨1, 2, cooEntries [⟨0, 0, 1⟩]⟩ := by
    simp [holdPartsW, dfToMatrix, maxUser]
  refine ⟨rngId_ok, by decide, by decide, itemsNodupW,
    splitTrainTest_ok rngId (mkRat 1 2) 7 [⟨0, 0, 1⟩, ⟨0, 1, 1⟩] 0 (by decide),
    hmt, hmh, ?_⟩
  have h := split_matrices_cols_rows_disjoint rngId (mkRat 1 2) 7
    [⟨0, 0, 1⟩, ⟨0, 1, 1⟩] 0 2
    (trainParts rngId (mkRat 1 2) 7 [⟨0, 0, 1⟩, ⟨0, 1, 1⟩])
    (holdParts rngId (mkRat 1 2) 7 [⟨0, 0, 1⟩, ⟨0, 1, 1⟩])
    (stateAfterLoop rngId (mkRat 1 2) 7 [⟨0, 0, 1⟩, ⟨0, 1, 1⟩] 0)
    ⟨1, 2, cooEntries [⟨0, 1, 1⟩]⟩ ⟨1, 2, cooEntries [⟨0, 0, 1⟩]⟩
    rngId_ok (by decide) (by decide) itemsNodupW
    (splitTrainTest_ok rngId (mkRat 1 2) 7 [⟨0, 0, 1⟩, ⟨0, 1, 1⟩] 0 (by decide))
    hmt hmh
  exact h.2.2.2

/-! ### Lemmas about the user-partition step of `split` -/

lemma pyRound_nonneg (q : ℚ) (h : 0 ≤ q) : 0 ≤ pyRound q := by
  have hfl : 0 ≤ ⌊q⌋ := Int.floor_nonneg.mpr h
  unfold pyRound
  split_ifs <;> omega

lemma pyRound_le (q : ℚ) : (pyRound q : ℚ) ≤ q + 1/2 := by
  have hfl := Int.floor_le q
  unfold pyRound
  split_ifs with h1 h2 h3
  · linarith
  · push_cast
    linarith
  · linarith
  · push_cast
    have hfr : q - (⌊q⌋ : ℚ) = 1/2 := le_antisymm (not_lt.mp h2) (not_lt.mp h1)
    linarith

lemma pyRound_zero : pyRound 0 = 0 := by
  norm_num [pyRound]

lemma two_holdoutUserCount_le (p : SplitterParams) (data : List Triplet)
    (hp0 : 0 < p.trainSplitProp) (hp1 : p.trainSplitProp ≤ 1) :
    2 * holdoutUserCount p data ≤ (postFilterUsers p data).length := by
  unfold holdoutUserCount
  by_cases hn : (postFilterUsers p data).length = 0
  · rw [hn]
    have hzero : ((0 : ℕ) : ℚ) * (1 - p.trainSplitProp) / 2 = 0 := by simp
    rw [hzero, pyRound_zero]
    simp
  · have hn1 : 1 ≤ (postFilterUsers p data).length := Nat.one_le_iff_ne_zero.mpr hn
    set n := (postFilterUsers p data).length with hnn
    set q := ((n : ℕ) : ℚ) * (1 - p.trainSplitProp) / 2 with hq
    have hcast : (1 : ℚ) ≤ ((n : ℕ) : ℚ) := by exact_mod_cast hn1
    have hqlt : q < (n : ℚ) / 2 := by
      rw [hq]
      have h1p : 1 - p.trainSplitProp < 1 := by linarith
      have hnpos : (0 : ℚ) < ((n : ℕ) : ℚ) := by linarith
      have := mul_lt_mul_of_pos_left h1p hnpos
      rw [mul_one] at this
      linarith
    have hle := pyRound_le q
    have hlt2 : (pyRound q : ℚ) < ((n : ℚ) + 1) / 2 := by linarith
    have hint : 2 * pyRound q < (n : ℤ) + 1 := by
      have : (2 * pyRound q : ℚ) < (n : ℚ) + 1 := by push_cast; linarith
      exact_mod_cast this
    omega

lemma shuffledUsers_length (g : RNG) (p : SplitterParams) (data : List Triplet)
    (hg : RNG.Ok g) :
    (shuffledUsers g p data).length = (postFilterUsers p data).length := by
  unfold shuffledUsers
  rw [List.length_map, (hg.1 _ _).length_eq, List.length_range]

lemma postFilterUsers_nodup (p : SplitterParams) (data : List Triplet) :
    (postFilterUsers p data).Nodup :=
  sortedUsers_nodup _

lemma shuffledUsers_nodup (g : RNG) (p : SplitterParams) (data : List Triplet)
    (hg : RNG.Ok g) : (shuffledUsers g p data).Nodup := by
  unfold shuffledUsers
  have hperm := hg.1 (g.seedState p.seed) (postFilterUsers p data).length
  have hnd : ((g.permFn (g.seedState p.seed) (postFilterUsers p data).length).1).Nodup :=
    hperm.nodup_iff.mpr (List.nodup_range _)
  refine List.Nodup.map_on ?_ hnd
  intro x hx y hy hxy
  have hxlt : x < (postFilterUsers p data).length := by
    have := hperm.mem_iff.mp hx
    simpa using this
  have hylt : y < (postFilterUsers p data).length := by
    have := hperm.mem_iff.mp hy
    simpa using this
  exact getD_inj_of_nodup _ (postFilterUsers_nodup p data) hxlt hylt hxy

lemma shuffledUsers_subset (g : RNG) (p : SplitterParams) (data : List Triplet)
    (hg : RNG.Ok g) : ∀ u ∈ shuffledUsers g p data, u ∈ postFilterUsers p data := by
  intro u hu
  obtain ⟨j, hj, rfl⟩ := List.mem_map.mp hu
  have hjlt : j < (postFilterUsers p data).length := by
    have := (hg.1 (g.seedState p.seed) (postFilterUsers p data).length).mem_iff.mp hj
    simpa using this
  exact getDN_mem_of_lt _ j hjlt

lemma nodup_take_drop_disj (l : List ℕ) (hnd : l.Nodup) (i : ℕ) :
    ∀ x ∈ l.take i, x ∉ l.drop i := by
  have h := hnd
  rw [← List.take_append_drop i l] at h
  exact fun x hx => (List.nodup_append.mp h).2.2 hx

lemma filterTriplets_sub (p : SplitterParams) (tp : List Triplet) :
    ∀ t ∈ (filterTriplets p tp).1, t ∈ tp := by
  intro t ht
  unfold filterTriplets at ht
  simp only at ht
  split_ifs at ht
  · exact List.mem_of_mem_filter (List.mem_of_mem_filter ht)
  · exact List.mem_of_mem_filter ht
  · exact List.mem_of_mem_filter ht
  · exact ht

lemma filterTriplets_users (p : SplitterParams) (tp : List Triplet) :
    (filterTriplets p tp).2 = sortedUsers (filterTriplets p tp).1 := by
  unfold filterTriplets
  simp only

lemma filterInteractData_users_sub (p : SplitterParams) (data : List Triplet)
    (users itemIdx : List ℕ) :
    ∀ u ∈ (filterInteractData p data users itemIdx).2, u ∈ users := by
  intro u hu
  unfold filterInteractData at hu
  simp only at hu
  rw [filterTriplets_users] at hu
  obtain ⟨t, ht, rfl⟩ := (mem_sortedUsers _ _).mp hu
  have h2 := filterTriplets_sub p _ t ht
  have h3 := List.mem_of_mem_filter h2
  simpa using (List.mem_filter.mp h3).2

lemma blocks_pairwise_disjoint (g : RNG) (p : SplitterParams) (data : List Triplet)
    (hg : RNG.Ok g) (h2 : 2 * holdoutUserCount p data ≤ (postFilterUsers p data).length) :
    (∀ u ∈ trainBlock g p data, u ∉ vadBlock g p data) ∧
    (∀ u ∈ trainBlock g p data, u ∉ testBlock g p data) ∧
    (∀ u ∈ vadBlock g p data, u ∉ testBlock g p data) := by
  set l := shuffledUsers g p data with hl
  set N := (postFilterUsers p data).length with hN
  set h := holdoutUserCount p data with hh
  have htr : trainBlock g p data = l.take (N - 2 * h) := rfl
  have hvd : vadBlock g p data = (l.drop (N - 2 * h)).take h := rfl
  have hte : testBlock g p data = l.drop (N - h) := rfl
  have hnd : l.Nodup := shuffledUsers_nodup g p data hg
  have hdisj1 := nodup_take_drop_disj l hnd (N - 2 * h)
  refine ⟨?_, ?_, ?_⟩
  · intro u hu hv
    rw [htr] at hu
    rw [hvd] at hv
    exact hdisj1 u hu (List.take_subset _ _ hv)
  · intro u hu hv
    rw [htr] at hu
    rw [hte] at hv
    have hdd : l.drop (N - h) = (l.drop (N - 2 * h)).drop ((N - h) - (N - 2 * h)) := by
      rw [List.drop_drop]
      congr 1
      omega
    refine hdisj1 u hu ?_
    rw [hdd] at hv
    exact List.drop_subset _ _ hv
  · intro u hu hv
    rw [hvd] at hu
    rw [hte] at hv
    have hnd2 : (l.drop (N - 2 * h)).Nodup :=
      List.Nodup.sublist (List.drop_sublist _ _) hnd
    have hdisj2 := nodup_take_drop_disj (l.drop (N - 2 * h)) hnd2 h
    have hdd : l.drop (N - h) = (l.drop (N - 2 * h)).drop h := by
      rw [List.drop_drop]
      congr 1
      omega
    rw [hdd] at hv
    exact hdisj2 u hu hv

lemma splitAll_ok_components (g : RNG) (p : SplitterParams) (data : List Triplet)
    (st : ℕ) (out : SplitOutput) (stOut : ℕ)
    (hok : splitAll g p data st = (Except.ok out, stOut)) :
    out.trainUsers = trainBlock g p data ∧
    out.vadUsers ∈ [(filterInteractData p (filterTriplets p data).1 (vadBlock g p data)
      (itemIdxOf g p data)).2] ∧
    out.testUsers ∈ [(filterInteractData p (filterTriplets p data).1 (testBlock g p data)
      (itemIdxOf g p data)).2] := by
  have h := hok
  simp only [splitAll] at h
  rcases hv : splitTrainTest g p.testHoldoutProp p.seed
      (filterInteractData p (filterTriplets p data).1 (vadBlock g p data)
        (itemIdxOf g p data)).1
      (g.permFn (g.seedState p.seed) (postFilterUsers p data).length).2 with ⟨ve, vst⟩
  rw [hv] at h
  cases ve with
  | error e => simp at h
  | ok vpair =>
    dsimp only at h
    rcases ht : splitTrainTest g p.testHoldoutProp p.seed
        (filterInteractData p (filterTriplets p data).1 (testBlock g p data)
          (itemIdxOf g p data)).1 vst with ⟨te, tst⟩
    rw [ht] at h
    cases te with
    | error e => simp at h
    | ok tpair =>
      dsimp only at h
      simp only [Prod.mk.injEq, Except.ok.injEq] at h
      rw [← h.1]
      simp

/-! ### C6: disjointness of the three user sets -/

/-- C6 amended: whenever `split` succeeds (with an in-range
`train_split_prop`), the three returned user sets are pairwise disjoint and
each is contained in the post-filter user set; the union can be a strict
subset, because the validation / test users are re-filtered against the
training item universe and the activity thresholds. -/
theorem split_user_sets_disjoint_subset (g : RNG) (p : SplitterParams)
    (data : List Triplet) (st : ℕ) (out : SplitOutput) (stOut : ℕ)
    (hg : RNG.Ok g) (hp0 : 0 < p.trainSplitProp) (hp1 : p.trainSplitProp ≤ 1)
    (hok : splitAll g p data st = (Except.ok out, stOut)) :
    (∀ u ∈ out.trainUsers, u ∉ out.vadUsers) ∧
    (∀ u ∈ out.trainUsers, u ∉ out.testUsers) ∧
    (∀ u ∈ out.vadUsers, u ∉ out.testUsers) ∧
    (∀ u, (u ∈ out.trainUsers ∨ u ∈ out.vadUsers ∨ u ∈ out.testUsers) →
      u ∈ postFilterUsers p data) := by
  obtain ⟨htru, hvadu, htestu⟩ := splitAll_ok_components g p data st out stOut hok
  rw [List.mem_singleton] at hvadu htestu
  have h2 := two_holdoutUserCount_le p data hp0 hp1
  obtain ⟨hd1, hd2, hd3⟩ := blocks_pairwise_disjoint g p data hg h2
  have hvsub : ∀ u ∈ out.vadUsers, u ∈ vadBlock g p data := by
    rw [hvadu]
    exact filterInteractData_users_sub p _ _ _
  have htsub : ∀ u ∈ out.testUsers, u ∈ testBlock g p data := by
    rw [htestu]
    exact filterInteractData_users_sub p _ _ _
  refine ⟨?_, ?_, ?_, ?_⟩
  · intro u hu hv
    exact hd1 u (htru ▸ hu) (hvsub u hv)
  · intro u hu hv
    exact hd2 u (htru ▸ hu) (htsub u hv)
  · intro u hu hv
    exact hd3 u (hvsub u hu) (htsub u hv)
  · intro u hu
    have hsub := shuffledUsers_subset g p data hg
    rcases hu with hu | hu | hu
    · exact hsub u (List.take_subset _ _ (htru ▸ hu))
    · exact hsub u (List.drop_subset _ _ (List.take_subset _ _ (hvsub u hu)))
    · exact hsub u (List.drop_subset _ _ (htsub u hu))

/-- C6 counterexample: user 3 survives the threshold filter but interacts only
with an item (99) outside the training item universe, so `split` silently
drops it from the returned validation users: the union of the three returned
user sets is a strict subset of the post-filter user set. -/
theorem split_union_loses_user_cex :
    ((splitAll rngId ⟨mkRat 1 3, mkRat 1 2, 0, 0, 7⟩
        [⟨1, 10, 1⟩, ⟨2, 11, 1⟩, ⟨3, 99, 1⟩, ⟨4, 10, 1⟩, ⟨5, 10, 1⟩, ⟨6, 10, 1⟩]
        0).1.map SplitOutput.trainUsers) = Except.ok [1, 2] ∧
    ((splitAll rngId ⟨mkRat 1 3, mkRat 1 2, 0, 0, 7⟩
        [⟨1, 10, 1⟩, ⟨2, 11, 1⟩, ⟨3, 99, 1⟩, ⟨4, 10, 1⟩, ⟨5, 10, 1⟩, ⟨6, 10, 1⟩]
        0).1.map SplitOutput.vadUsers) = Except.ok [4] ∧
    ((splitAll rngId ⟨mkRat 1 3, mkRat 1 2, 0, 0, 7⟩
        [⟨1, 10, 1⟩, ⟨2, 11, 1⟩, ⟨3, 99, 1⟩, ⟨4, 10, 1⟩, ⟨5, 10, 1⟩, ⟨6, 10, 1⟩]
        0).1.map SplitOutput.testUsers) = Except.ok [5, 6] ∧
    3 ∈ postFilterUsers ⟨mkRat 1 3, mkRat 1 2, 0, 0, 7⟩
        [⟨1, 10, 1⟩, ⟨2, 11, 1⟩, ⟨3, 99, 1⟩, ⟨4, 10, 1⟩, ⟨5, 10, 1⟩, ⟨6, 10, 1⟩] ∧
    3 ∉ ([1, 2] : List ℕ) ∧ 3 ∉ ([4] : List ℕ) ∧ 3 ∉ ([5, 6] : List ℕ) := by
  have hlen : (postFilterUsers ⟨mkRat 1 3, mkRat 1 2, 0, 0, 7⟩
      [⟨1, 10, 1⟩, ⟨2, 11, 1⟩, ⟨3, 99, 1⟩, ⟨4, 10, 1⟩, ⟨5, 10, 1⟩, ⟨6, 10, 1⟩]).length = 6 := by
    decide
  have h6 : holdoutUserCount ⟨mkRat 1 3, mkRat 1 2, 0, 0, 7⟩
      [⟨1, 10, 1⟩, ⟨2, 11, 1⟩, ⟨3, 99, 1⟩, ⟨4, 10, 1⟩, ⟨5, 10, 1⟩, ⟨6, 10, 1⟩] = 2 := by
    rw [holdoutUserCount, hlen]
    have hfl : pyRound (((6:ℕ) : ℚ) * (1 - mkRat 1 3) / 2) = 2 := by
      norm_num [pyRound, Rat.mkRat_eq_div]
    rw [hfl]
    decide
  have hs1 : holdoutSizeOf (mkRat 1 2) 1 = 0 := by
    norm_num [holdoutSizeOf, Rat.mkRat_eq_div]
  have hshuf : shuffledUsers rngId ⟨mkRat 1 3, mkRat 1 2, 0, 0, 7⟩
      [⟨1, 10, 1⟩, ⟨2, 11, 1⟩, ⟨3, 99, 1⟩, ⟨4, 10, 1⟩, ⟨5, 10, 1⟩, ⟨6, 10, 1⟩] =
      [1, 2, 3, 4, 5, 6] := by
    decide
  have htrain : trainBlock rngId ⟨mkRat 1 3, mkRat 1 2, 0, 0, 7⟩
      [⟨1, 10, 1⟩, ⟨2, 11, 1⟩, ⟨3, 99, 1⟩, ⟨4, 10, 1⟩, ⟨5, 10, 1⟩, ⟨6, 10, 1⟩] = [1, 2] := by
    rw [trainBlock, hshuf, hlen, h6]
    decide
  have hvadB : vadBlock rngId ⟨mkRat 1 3, mkRat 1 2, 0, 0, 7⟩
      [⟨1, 10, 1⟩, ⟨2, 11, 1⟩, ⟨3, 99, 1⟩, ⟨4, 10, 1⟩, ⟨5, 10, 1⟩, ⟨6, 10, 1⟩] = [3, 4] := by
    rw [vadBlock, hshuf, hlen, h6]
    decide
  have hteB : testBlock rngId ⟨mkRat 1 3, mkRat 1 2, 0, 0, 7⟩
      [⟨1, 10, 1⟩, ⟨2, 11, 1⟩, ⟨3, 99, 1⟩, ⟨4, 10, 1⟩, ⟨5, 10, 1⟩, ⟨6, 10, 1⟩] = [5, 6] := by
    rw [testBlock, hshuf, hlen, h6]
    decide
  have htrD : trainDataOf rngId ⟨mkRat 1 3, mkRat 1 2, 0, 0, 7⟩
      [⟨1, 10, 1⟩, ⟨2, 11, 1⟩, ⟨3, 99, 1⟩, ⟨4, 10, 1⟩, ⟨5, 10, 1⟩, ⟨6, 10, 1⟩] =
      [⟨1, 10, 1⟩, ⟨2, 11, 1⟩] := by
    rw [trainDataOf, htrain]
    decide
  have hitem : itemIdxOf rngId ⟨mkRat 1 3, mkRat 1 2, 0, 0, 7⟩
      [⟨1, 10, 1⟩, ⟨2, 11, 1⟩, ⟨3, 99, 1⟩, ⟨4, 10, 1⟩, ⟨5, 10, 1⟩, ⟨6, 10, 1⟩] = [10, 11] := by
    rw [itemIdxOf, htrD]
    decide
  have hvadF : filterInteractData ⟨mkRat 1 3, mkRat 1 2, 0, 0, 7⟩
      (filterTriplets ⟨mkRat 1 3, mkRat 1 2, 0, 0, 7⟩
        [⟨1, 10, 1⟩, ⟨2, 11, 1⟩, ⟨3, 99, 1⟩, ⟨4, 10, 1⟩, ⟨5, 10, 1⟩, ⟨6, 10, 1⟩]).1
      (vadBlock rngId ⟨mkRat 1 3, mkRat 1 2, 0, 0, 7⟩
        [⟨1, 10, 1⟩, ⟨2, 11, 1⟩, ⟨3, 99, 1⟩, ⟨4, 10, 1⟩, ⟨5, 10, 1⟩, ⟨6, 10, 1⟩])
      (itemIdxOf rngId ⟨mkRat 1 3, mkRat 1 2, 0, 0, 7⟩
        [⟨1, 10, 1⟩, ⟨2, 11, 1⟩, ⟨3, 99, 1⟩, ⟨4, 10, 1⟩, ⟨5, 10, 1⟩, ⟨6, 10, 1⟩]) =
      ([⟨4, 10, 1⟩], [4]) := by
    rw [hvadB, hitem]
    decide
  have hteF : filterInteractData ⟨mkRat 1 3, mkRat 1 2, 0, 0, 7⟩
      (filterTriplets ⟨mkRat 1 3, mkRat 1 2, 0, 0, 7⟩
        [⟨1, 10, 1⟩, ⟨2, 11, 1⟩, ⟨3, 99, 1⟩, ⟨4, 10, 1⟩, ⟨5, 10, 1⟩, ⟨6, 10, 1⟩]).1
      (testBlock rngId ⟨mkRat 1 3, mkRat 1 2, 0, 0, 7⟩
        [⟨1, 10, 1⟩, ⟨2, 11, 1⟩, ⟨3, 99, 1⟩, ⟨4, 10, 1⟩, ⟨5, 10, 1⟩, ⟨6, 10, 1⟩])
      (itemIdxOf rngId ⟨mkRat 1 3, mkRat 1 2, 0, 0, 7⟩
        [⟨1, 10, 1⟩, ⟨2, 11, 1⟩, ⟨3, 99, 1⟩, ⟨4, 10, 1⟩, ⟨5, 10, 1⟩, ⟨6, 10, 1⟩]) =
      ([⟨5, 10, 1⟩, ⟨6, 10, 1⟩], [5, 6]) := by
    rw [hteB, hitem]
    decide
  have hv1 : ∀ st, splitTrainTest rngId (mkRat 1 2) 7 [⟨4, 10, 1⟩] st =
      (Except.ok ([⟨4, 10, 1⟩], []), 7) := by
    intro st
    simp [splitTrainTest, trainParts, holdParts, stateAfterLoop, groupsOf, sortedUsers,
      userRows, userSel, rngId, pickIdx, dropIdx, uniqueFirst, uniqueFirstAux,
      List.insertionSort, List.orderedInsert, hs1]
  have hv2 : ∀ st, splitTrainTest rngId (mkRat 1 2) 7 [⟨5, 10, 1⟩, ⟨6, 10, 1⟩] st =
      (Except.ok ([⟨5, 10, 1⟩, ⟨6, 10, 1⟩], []), 7) := by
    intro st
    simp [splitTrainTest, trainParts, holdParts, stateAfterLoop, groupsOf, sortedUsers,
      userRows, userSel, rngId, pickIdx, dropIdx, uniqueFirst, uniqueFirstAux,
      List.insertionSort, List.orderedInsert, hs1]
    try decide
  have hmain : (splitAll rngId ⟨mkRat 1 3, mkRat 1 2, 0, 0, 7⟩
      [⟨1, 10, 1⟩, ⟨2, 11, 1⟩, ⟨3, 99, 1⟩, ⟨4, 10, 1⟩, ⟨5, 10, 1⟩, ⟨6, 10, 1⟩] 0).1 =
      Except.ok ⟨[1, 2], [⟨1, 10, 1⟩, ⟨2, 11, 1⟩], [4], [⟨4, 10, 1⟩], [], [5, 6],
        [⟨5, 10, 1⟩, ⟨6, 10, 1⟩], []⟩ := by
    simp only [splitAll, hvadF, hteF, htrain, htrD]
    rw [hv1]
    dsimp only
    rw [hv2]
  rw [hmain]
  refine ⟨rfl, rfl, rfl, by decide, by decide, by decide, by decide⟩

lemma holdoutSizeHalfOne : holdoutSizeOf (mkRat 1 2) 1 = 0 := by
  norm_num [holdoutSizeOf, Rat.mkRat_eq_div]

lemma splitAllW_eval :
    splitAll rngId ⟨mkRat 1 3, mkRat 1 2, 0, 0, 7⟩
      [⟨1, 10, 1⟩, ⟨2, 10, 1⟩, ⟨3, 10, 1⟩] 0 =
      (Except.ok ⟨[1], [⟨1, 10, 1⟩], [2], [⟨2, 10, 1⟩], [], [3], [⟨3, 10, 1⟩], []⟩, 7) := by
  have hlen : (postFilterUsers ⟨mkRat 1 3, mkRat 1 2, 0, 0, 7⟩
      [⟨1, 10, 1⟩, ⟨2, 10, 1⟩, ⟨3, 10, 1⟩]).length = 3 := by
    decide
  have h6 : holdoutUserCount ⟨mkRat 1 3, mkRat 1 2, 0, 0, 7⟩
      [⟨1, 10, 1⟩, ⟨2, 10, 1⟩, ⟨3, 10, 1⟩] = 1 := by
    rw [holdoutUserCount, hlen]
    have hfl : pyRound (((3:ℕ) : ℚ) * (1 - mkRat 1 3) / 2) = 1 := by
      norm_num [pyRound, Rat.mkRat_eq_div]
    rw [hfl]
    decide
  have hshuf : shuffledUsers rngId ⟨mkRat 1 3, mkRat 1 2, 0, 0, 7⟩
      [⟨1, 10, 1⟩, ⟨2, 10, 1⟩, ⟨3, 10, 1⟩] = [1, 2, 3] := by
    decide
  have htrain : trainBlock rngId ⟨mkRat 1 3, mkRat 1 2, 0, 0, 7⟩
      [⟨1, 10, 1⟩, ⟨2, 10, 1⟩, ⟨3, 10, 1⟩] = [1] := by
    rw [trainBlock, hshuf, hlen, h6]
    decide
  have hvadB : vadBlock rngId ⟨mkRat 1 3, mkRat 1 2, 0, 0, 7⟩
      [⟨1, 10, 1⟩, ⟨2, 10, 1⟩, ⟨3, 10, 1⟩] = [2] := by
    rw [vadBlock, hshuf, hlen, h6]
    decide
  have hteB : testBlock rngId ⟨mkRat 1 3, mkRat 1 2, 0, 0, 7⟩
      [⟨1, 10, 1⟩, ⟨2, 10, 1⟩, ⟨3, 10, 1⟩] = [3] := by
    rw [testBlock, hshuf, hlen, h6]
    decide
  have htrD : trainDataOf rngId ⟨mkRat 1 3, mkRat 1 2, 0, 0, 7⟩
      [⟨1, 10, 1⟩, ⟨2, 10, 1⟩, ⟨3, 10, 1⟩] = [⟨1, 10, 1⟩] := by
    rw [trainDataOf, htrain]
    decide
  have hitem : itemIdxOf rngId ⟨mkRat 1 3, mkRat 1 2, 0, 0, 7⟩
      [⟨1, 10, 1⟩, ⟨2, 10, 1⟩, ⟨3, 10, 1⟩] = [10] := by
    rw [itemIdxOf, htrD]
    decide
  have hvadF : filterInteractData ⟨mkRat 1 3, mkRat 1 2, 0, 0, 7⟩
      (filterTriplets ⟨mkRat 1 3, mkRat 1 2, 0, 0, 7⟩
        [⟨1, 10, 1⟩, ⟨2, 10, 1⟩, ⟨3, 10, 1⟩]).1
      (vadBlock rngId ⟨mkRat 1 3, mkRat 1 2, 0, 0, 7⟩
        [⟨1, 10, 1⟩, ⟨2, 10, 1⟩, ⟨3, 10, 1⟩])
      (itemIdxOf rngId ⟨mkRat 1 3, mkRat 1 2, 0, 0, 7⟩
        [⟨1, 10, 1⟩, ⟨2, 10, 1⟩, ⟨3, 10, 1⟩]) = ([⟨2, 10, 1⟩], [2]) := by
    rw [hvadB, hitem]
    decide
  have hteF : filterInteractData ⟨mkRat 1 3, mkRat 1 2, 0, 0, 7⟩
      (filterTriplets ⟨mkRat 1 3, mkRat 1 2, 0, 0, 7⟩
        [⟨1, 10, 1⟩, ⟨2, 10, 1⟩, ⟨3, 10, 1⟩]).1
      (testBlock rngId ⟨mkRat 1 3, mkRat 1 2, 0, 0, 7⟩
        [⟨1, 10, 1⟩, ⟨2, 10, 1⟩, ⟨3, 10, 1⟩])
      (itemIdxOf rngId ⟨mkRat 1 3, mkRat 1 2, 0, 0, 7⟩
        [⟨1, 10, 1⟩, ⟨2, 10, 1⟩, ⟨3, 10, 1⟩]) = ([⟨3, 10, 1⟩], [3]) := by
    rw [hteB, hitem]
    decide
  have hv1 : ∀ st, splitTrainTest rngId (mkRat 1 2) 7 [⟨2, 10, 1⟩] st =
      (Except.ok ([⟨2, 10, 1⟩], []), 7) := by
    intro st
    simp [splitTrainTest, trainParts, holdParts, stateAfterLoop, groupsOf, sortedUsers,
      userRows, userSel, rngId, pickIdx, dropIdx, uniqueFirst, uniqueFirstAux,
      List.insertionSort, List.orderedInsert, holdoutSizeHalfOne]
  have hv2 : ∀ st, splitTrainTest rngId (mkRat 1 2) 7 [⟨3, 10, 1⟩] st =
      (Except.ok ([⟨3, 10, 1⟩], []), 7) := by
    intro st
    simp [splitTrainTest, trainParts, holdParts, stateAfterLoop, groupsOf, sortedUsers,
      userRows, userSel, rngId, pickIdx, dropIdx, uniqueFirst, uniqueFirstAux,
      List.insertionSort, List.orderedInsert, holdoutSizeHalfOne]
  simp only [splitAll, hvadF, hteF, htrain, htrD]
  rw [hv1]
  dsimp only
  rw [hv2]

/-- Witness for the amended C6 at a three-user table. -/
theorem split_user_sets_disjoint_subset_witness :
    RNG.Ok rngId ∧
    0 < (⟨mkRat 1 3, mkRat 1 2, 0, 0, 7⟩ : SplitterParams).trainSplitProp ∧
    (⟨mkRat 1 3, mkRat 1 2, 0, 0, 7⟩ : SplitterParams).trainSplitProp ≤ 1 ∧
    splitAll rngId ⟨mkRat 1 3, mkRat 1 2, 0, 0, 7⟩
      [⟨1, 10, 1⟩, ⟨2, 10, 1⟩, ⟨3, 10, 1⟩] 0 =
      (Except.ok ⟨[1], [⟨1, 10, 1⟩], [2], [⟨2, 10, 1⟩], [], [3], [⟨3, 10, 1⟩], []⟩, 7) ∧
    ((∀ u ∈ (SplitOutput.mk [1] [⟨1, 10, 1⟩] [2] [⟨2, 10, 1⟩] [] [3] [⟨3, 10, 1⟩]
        []).trainUsers,
        u ∉ (SplitOutput.mk [1] [⟨1, 10, 1⟩] [2] [⟨2, 10, 1⟩] [] [3] [⟨3, 10, 1⟩]
        []).vadUsers) ∧
      (∀ u ∈ (SplitOutput.mk [1] [⟨1, 10, 1⟩] [2] [⟨2, 10, 1⟩] [] [3] [⟨3, 10, 1⟩]
        []).trainUsers,
        u ∉ (SplitOutput.mk [1] [⟨1, 10, 1⟩] [2] [⟨2, 10, 1⟩] [] [3] [⟨3, 10, 1⟩]
        []).testUsers) ∧
      (∀ u ∈ (SplitOutput.mk [1] [⟨1, 10, 1⟩] [2] [⟨2, 10, 1⟩] [] [3] [⟨3, 10, 1⟩]
        []).vadUsers,
        u ∉ (SplitOutput.mk [1] [⟨1, 10, 1⟩] [2] [⟨2, 10, 1⟩] [] [3] [⟨3, 10, 1⟩]
        []).testUsers) ∧
      (∀ u, (u ∈ (SplitOutput.mk [1] [⟨1, 10, 1⟩] [2] [⟨2, 10, 1⟩] [] [3] [⟨3, 10, 1⟩]
        []).trainUsers ∨
          u ∈ (SplitOutput.mk [1] [⟨1, 10, 1⟩] [2] [⟨2, 10, 1⟩] [] [3] [⟨3, 10, 1⟩]
        []).vadUsers ∨
          u ∈ (SplitOutput.mk [1] [⟨1, 10, 1⟩] [2] [⟨2, 10, 1⟩] [] [3] [⟨3, 10, 1⟩]
        []).testUsers) →
        u ∈ postFilterUsers ⟨mkRat 1 3, mkRat 1 2, 0, 0, 7⟩
          [⟨1, 10, 1⟩, ⟨2, 10, 1⟩, ⟨3, 10, 1⟩])) :=
  ⟨rngId_ok, by decide, by decide, splitAllW_eval,
    split_user_sets_disjoint_subset rngId ⟨mkRat 1 3, mkRat 1 2, 0, 0, 7⟩
      [⟨1, 10, 1⟩, ⟨2, 10, 1⟩, ⟨3, 10, 1⟩] 0
      ⟨[1], [⟨1, 10, 1⟩], [2], [⟨2, 10, 1⟩], [], [3], [⟨3, 10, 1⟩], []⟩ 7
      rngId_ok (by decide) (by decide) splitAllW_eval⟩

/-! ### C9: fatal failure on empty partitions -/

lemma sortedUsers_nil : sortedUsers [] = [] := rfl

lemma filterTriplets_nil (p : SplitterParams) : (filterTriplets p []).1 = [] := by
  unfold filterTriplets
  simp only
  split_ifs <;> simp

lemma splitTrainTest_nil (g : RNG) (prop : ℚ) (seed st : ℕ) :
    splitTrainTest g prop seed [] st =
      (Except.error "No objects to concatenate", st) := rfl

lemma filterInteractData_users_nil (p : SplitterParams) (data : List Triplet)
    (itemIdx : List ℕ) : (filterInteractData p data [] itemIdx).1 = [] := by
  unfold filterInteractData
  simp only
  have h1 : data.filter (fun t => decide (t.user ∈ ([] : List ℕ))) = [] := by
    simp
  rw [h1]
  have h2 : (([] : List Triplet)).filter (fun t => decide (t.item ∈ itemIdx)) = [] := rfl
  rw [h2, filterTriplets_nil]

lemma filterInteractData_items_nil (p : SplitterParams) (data : List Triplet)
    (users : List ℕ) : (filterInteractData p data users []).1 = [] := by
  unfold filterInteractData
  simp only
  have h1 : (data.filter (fun t => decide (t.user ∈ users))).filter
      (fun t => decide (t.item ∈ ([] : List ℕ))) = [] := by
    simp
  rw [h1, filterTriplets_nil]

lemma splitAll_error_of_vadF_nil (g : RNG) (p : SplitterParams) (data : List Triplet)
    (st : ℕ)
    (hv : (filterInteractData p (filterTriplets p data).1 (vadBlock g p data)
      (itemIdxOf g p data)).1 = []) :
    (splitAll g p data st).1 = Except.error "No objects to concatenate" := by
  simp only [splitAll]
  rw [hv, splitTrainTest_nil]

lemma splitAll_error_of_teF_nil (g : RNG) (p : SplitterParams) (data : List Triplet)
    (st : ℕ)
    (ht : (filterInteractData p (filterTriplets p data).1 (testBlock g p data)
      (itemIdxOf g p data)).1 = []) :
    ∃ e, (splitAll g p data st).1 = Except.error e := by
  simp only [splitAll]
  rcases hv : splitTrainTest g p.testHoldoutProp p.seed
      (filterInteractData p (filterTriplets p data).1 (vadBlock g p data)
        (itemIdxOf g p data)).1
      (g.permFn (g.seedState p.seed) (postFilterUsers p data).length).2 with ⟨ve, vst⟩
  cases ve with
  | error e => exact ⟨e, rfl⟩
  | ok vpair =>
    dsimp only
    rw [ht, splitTrainTest_nil]
    exact ⟨"No objects to concatenate", rfl⟩

/-- C9: for an in-range `train_split_prop`, whenever the threshold filter
leaves no interactions (hence no surviving user and no surviving item), or the
shuffled user slicing makes any of the three partitions empty, `split` raises
(the `ValueError` of `pd.concat` on an empty list of frames, modelled as
`Except.error`) and returns no tables — so no matrix can be built from its
output. -/
theorem split_fatal_on_empty_partition (g : RNG) (p : SplitterParams)
    (data : List Triplet) (st : ℕ) (hg : RNG.Ok g)
    (hempty : (filterTriplets p data).1 = [] ∨ postFilterUsers p data = [] ∨
      trainBlock g p data = [] ∨ vadBlock g p data = [] ∨ testBlock g p data = []) :
    ∃ e, (splitAll g p data st).1 = Except.error e := by
  have hshuffle_nil : postFilterUsers p data = [] → shuffledUsers g p data = [] := by
    intro h
    have hlen := shuffledUsers_length g p data hg
    rw [h] at hlen
    exact List.length_eq_zero.mp hlen
  rcases hempty with h | h | h | h | h
  · -- no surviving interaction: the post-filter users are empty too
    have husers : postFilterUsers p data = [] := by
      rw [postFilterUsers, filterTriplets_users, h, sortedUsers_nil]
    have hvad : vadBlock g p data = [] := by
      rw [vadBlock, hshuffle_nil husers]
      simp
    exact ⟨_, splitAll_error_of_vadF_nil g p data st (by
      rw [hvad]
      exact filterInteractData_users_nil p _ _)⟩
  · have hvad : vadBlock g p data = [] := by
      rw [vadBlock, hshuffle_nil h]
      simp
    exact ⟨_, splitAll_error_of_vadF_nil g p data st (by
      rw [hvad]
      exact filterInteractData_users_nil p _ _)⟩
  · -- empty training block: the training item universe is empty
    have hitems : itemIdxOf g p data = [] := by
      rw [itemIdxOf, trainDataOf, h]
      simp [uniqueFirst, uniqueFirstAux]
    exact ⟨_, splitAll_error_of_vadF_nil g p data st (by
      rw [hitems]
      exact filterInteractData_items_nil p _ _)⟩
  · exact ⟨_, splitAll_error_of_vadF_nil g p data st (by
      rw [h]
      exact filterInteractData_users_nil p _ _)⟩
  · exact splitAll_error_of_teF_nil g p data st (by
      rw [h]
      exact filterInteractData_users_nil p _ _)

/-- Witness for C9: an empty interaction table makes the splitter fail. -/
theorem split_fatal_on_empty_partition_witness :
    RNG.Ok rngId ∧
    (filterTriplets ⟨mkRat 1 3, mkRat 1 2, 0, 0, 7⟩ ([] : List Triplet)).1 = [] ∧
    (∃ e, (splitAll rngId ⟨mkRat 1 3, mkRat 1 2, 0, 0, 7⟩ ([] : List Triplet) 0).1 =
      Except.error e) :=
  ⟨rngId_ok, by decide,
    split_fatal_on_empty_partition rngId ⟨mkRat 1 3, mkRat 1 2, 0, 0, 7⟩ [] 0 rngId_ok
      (Or.inl (by decide))⟩

end Repsys
